import Mathlib

/-!
# Verification of the Ultima Underworld strings/conversation toolchain

Shallow embedding, in Lean 4, of the parts of the toolchain that the
specification's testable properties talk about:

* the `CNV.ARK` RLE-style compressor and decompressor
  (`uw_cnv_compiler.py`, class `ArkCompressor`),
* the Huffman string codec (`uw-strings-packer.py` `StringsPacker` and
  `uw-strings-extractor.py` `UaGameStrings.load`),
* the conversation bytecode VM and its assembly parser
  (`uw_cnv_runner.py`, class `UltimaUnderworldVM`),
* the UWScript code generator for the constructs exercised by the
  function-parameter and string-substitution scenarios
  (`UWScript/uwscript_compiler.py`, class `CodeGenerator`).

Python byte strings are modelled as `List Nat`, Python strings as
`List Char` or `String` as convenient, Python ints as `Int` (arbitrary
precision, as in the source; the source does *not* reduce values mod
2^16), and the VM memory as a function `Int → Int` together with the
source's explicit address-wrapping helpers.
-/

namespace UwTools

/-! ## CNV.ARK RLE codec (`uw_cnv_compiler.py`, `ArkCompressor`) -/

/-- The run-start test of `ArkCompressor.compress`'s literal scan:
`i + 2 < len(input_data) and input_data[i] == input_data[i+1] == input_data[i+2]`
(at least three bytes remain and they are all equal). -/
def run3 : List Nat → Bool
  | a :: b :: c :: _ => a == b && b == c
  | _ => false

/-- The guard of the run-detection branch of `ArkCompressor.compress`:
`i + 2 < len(input_data) and input_data[i] == input_data[i+1]`. -/
def runGuard : List Nat → Bool
  | a :: b :: _ :: _ => a == b
  | _ => false

/-- The inner run-measuring loop of `ArkCompressor.compress`:
`while j + 1 < len(input_data) and input_data[j+1] == run_value and run_length < 130`.
`rl` is the run length counted so far (the Python loop starts it at 1,
counting the byte at `i` itself); `l` is the list of bytes after the
ones already counted. -/
def runLength (v : Nat) : List Nat → Nat → Nat
  | b :: rest, rl => if b == v && rl < 130 then runLength v rest (rl + 1) else rl
  | [], rl => rl

/-- The literal-scanning loop of `ArkCompressor.compress`:
`while i < len: if run3 at i: break; i += 1; if i - literal_start >= 128: break`.
`k` counts the bytes taken into the literal block so far. -/
def litLen : List Nat → Nat → Nat
  | [], k => k
  | l@(_ :: rest), k =>
    if run3 l then k
    else if 128 ≤ k + 1 then k + 1
    else litLen rest (k + 1)

theorem le_runLength (v : Nat) : ∀ (l : List Nat) (rl : Nat), rl ≤ runLength v l rl
  | [], _ => Nat.le_refl _
  | b :: rest, rl => by
    unfold runLength
    split
    · exact Nat.le_trans (Nat.le_succ rl) (le_runLength v rest (rl + 1))
    · exact Nat.le_refl _

theorem le_litLen : ∀ (l : List Nat) (k : Nat), k ≤ litLen l k
  | [], _ => Nat.le_refl _
  | _ :: rest, k => by
    unfold litLen
    split
    · exact Nat.le_refl _
    · split
      · exact Nat.le_succ k
      · exact Nat.le_trans (Nat.le_succ k) (le_litLen rest (k + 1))

theorem litLen_pos (l : List Nat) (k : Nat) (hl : l ≠ []) (h3 : run3 l = false) :
    0 < litLen l k := by
  match l with
  | [] => exact absurd rfl hl
  | a :: rest =>
    unfold litLen
    rw [if_neg (by simp [h3])]
    split
    · omega
    · exact Nat.lt_of_lt_of_le (Nat.succ_pos k) (le_litLen rest (k + 1))

theorem run3_le_runLength {a b c : Nat} {tl : List Nat}
    (h : run3 (a :: b :: c :: tl) = true) : 3 ≤ runLength a (b :: c :: tl) 1 := by
  simp only [run3, Bool.and_eq_true, beq_iff_eq] at h
  obtain ⟨hab, hbc⟩ := h
  subst hbc
  subst hab
  have h1 : runLength a (a :: a :: tl) 1 = runLength a tl 3 := by
    norm_num [runLength]
  rw [h1]
  exact le_runLength a tl 3

theorem compress_lit_pos (a : Nat) (rest : List Nat)
    (h3 : ¬ 3 ≤ (if runGuard (a :: rest) then runLength a rest 1 else 1)) :
    0 < litLen (a :: rest) 0 := by
  apply litLen_pos _ _ (by simp)
  by_contra hc
  rw [Bool.not_eq_false] at hc
  match rest, hc with
  | [], hc => simp [run3] at hc
  | [b], hc => simp [run3] at hc
  | b :: c :: tl, hc =>
    have hg : runGuard (a :: b :: c :: tl) = true := by
      simp only [run3, Bool.and_eq_true, beq_iff_eq] at hc
      simp [runGuard, hc.1]
    rw [hg] at h3
    simp only [if_true] at h3
    exact h3 (run3_le_runLength hc)

/-- `ArkCompressor.compress`, restructured from the outer `while` loop into
recursion on the remaining input.  Each iteration first tries the run branch
(`i + 2 < len` and two equal bytes, then a run of length `run_length ≥ 3`
emits `0x80 | (run_length - 3)` followed by the value), otherwise emits a
literal block `literal_length - 1` followed by the bytes.  The source guard
`if literal_length > 0` is always true on the literal path, because the
literal scan cannot break before its first increment there
(`compress_lit_pos`); for that reason dropping `literal_length` bytes of
`a :: rest` is written as dropping `literal_length - 1` bytes of `rest`,
which also makes termination structural. -/
def compress (l : List Nat) : List Nat :=
  match l with
  | [] => []
  | a :: rest =>
    let rl := if runGuard (a :: rest) then runLength a rest 1 else 1
    if h3 : 3 ≤ rl then
      Nat.lor 128 (rl - 3) :: a :: compress ((a :: rest).drop rl)
    else
      let k := litLen (a :: rest) 0
      (k - 1) :: ((a :: rest).take k ++ compress (rest.drop (k - 1)))
termination_by l.length
decreasing_by
  · simp only [List.length_drop, List.length_cons]
    omega
  · simp only [List.length_drop, List.length_cons]
    omega

/-- `ArkCompressor.decompress`: read a control byte; high bit set means the
next byte is repeated `(c & 0x7F) + 3` times (nothing more if the value byte
is missing), otherwise the next `(c & 0x7F) + 1` bytes are copied (stop if
fewer remain). -/
def decompress (l : List Nat) : List Nat :=
  match l with
  | [] => []
  | c :: rest =>
    if Nat.land c 128 ≠ 0 then
      match rest with
      | v :: rest2 => List.replicate (Nat.land c 127 + 3) v ++ decompress rest2
      | [] => []
    else
      let cnt := Nat.land c 127 + 1
      if cnt ≤ rest.length then rest.take cnt ++ decompress (rest.drop cnt)
      else []
termination_by l.length
decreasing_by
  · simp
    omega
  · simp only [List.length_drop, List.length_cons]
    omega

/-! ### Round-trip lemmas for the RLE codec -/

theorem runLength_le_130 (v : Nat) : ∀ (l : List Nat) (rl : Nat), rl ≤ 130 →
    runLength v l rl ≤ 130
  | [], _, h => h
  | b :: rest, rl, h => by
    unfold runLength
    split
    · next hg =>
      simp only [Bool.and_eq_true, decide_eq_true_eq] at hg
      exact runLength_le_130 v rest (rl + 1) (by omega)
    · exact h

theorem runLength_spec (v : Nat) : ∀ (l : List Nat) (rl : Nat),
    runLength v l rl - rl ≤ l.length ∧
    l.take (runLength v l rl - rl) = List.replicate (runLength v l rl - rl) v
  | [], rl => by simp [runLength]
  | b :: rest, rl => by
    unfold runLength
    split
    · next hg =>
      simp only [Bool.and_eq_true, beq_iff_eq, decide_eq_true_eq] at hg
      obtain ⟨hbv, _⟩ := hg
      obtain ⟨ih1, ih2⟩ := runLength_spec v rest (rl + 1)
      have hle := le_runLength v rest (rl + 1)
      constructor
      · simp only [List.length_cons]
        omega
      · have hd : runLength v rest (rl + 1) - rl = (runLength v rest (rl + 1) - (rl + 1)) + 1 := by
          omega
        rw [hd, List.take_succ_cons, ih2, hbv, List.replicate_succ]
    · simp

theorem litLen_le : ∀ (l : List Nat) (k : Nat), litLen l k ≤ k + l.length
  | [], k => by simp [litLen]
  | a :: rest, k => by
    unfold litLen
    split
    · simp
    · split
      · simp
      · have := litLen_le rest (k + 1)
        simp only [List.length_cons]
        omega

theorem litLen_le_128 : ∀ (l : List Nat) (k : Nat), k < 128 → litLen l k ≤ 128
  | [], k, h => by simp [litLen]; omega
  | a :: rest, k, h => by
    unfold litLen
    split
    · omega
    · split
      · omega
      · next hk => exact litLen_le_128 rest (k + 1) (by omega)

theorem lor_hi_of_lt (x : Nat) (h : x < 128) : Nat.lor 128 x = 128 + x := by
  revert x h
  decide

theorem land_hi_of_lt (x : Nat) (h : x < 128) : Nat.land (128 + x) 128 = 128 := by
  revert x h
  decide

theorem land_lo_of_lt (x : Nat) (h : x < 128) : Nat.land (128 + x) 127 = x := by
  revert x h
  decide

theorem land_hi_zero_of_lt (c : Nat) (h : c < 128) : Nat.land c 128 = 0 := by
  revert c h
  decide

theorem land_lo_id_of_lt (c : Nat) (h : c < 128) : Nat.land c 127 = c := by
  revert c h
  decide

theorem compress_nil : compress [] = [] := by rw [compress]

theorem decompress_nil : decompress [] = [] := by rw [decompress]

theorem decompress_cons (c : Nat) (rest : List Nat) :
    decompress (c :: rest) =
      if Nat.land c 128 ≠ 0 then
        match rest with
        | v :: rest2 => List.replicate (Nat.land c 127 + 3) v ++ decompress rest2
        | [] => []
      else
        if Nat.land c 127 + 1 ≤ rest.length then
          rest.take (Nat.land c 127 + 1) ++ decompress (rest.drop (Nat.land c 127 + 1))
        else [] := by
  rw [decompress.eq_def]

theorem compress_cons_run (a : Nat) (rest : List Nat)
    (hg : runGuard (a :: rest) = true) (h3 : 3 ≤ runLength a rest 1) :
    compress (a :: rest) =
      Nat.lor 128 (runLength a rest 1 - 3) :: a ::
        compress ((a :: rest).drop (runLength a rest 1)) := by
  rw [compress]
  rw [hg]
  simp only [if_true]
  rw [dif_pos h3]

theorem compress_cons_lit (a : Nat) (rest : List Nat)
    (h3 : ¬ 3 ≤ (if runGuard (a :: rest) then runLength a rest 1 else 1)) :
    compress (a :: rest) =
      (litLen (a :: rest) 0 - 1) ::
        ((a :: rest).take (litLen (a :: rest) 0) ++
          compress (rest.drop (litLen (a :: rest) 0 - 1))) := by
  rw [compress]
  rw [dif_neg h3]

/-- C5 auxiliary: one compression step round-trips, by strong induction on
the input length. -/
theorem decompress_compress_aux : ∀ (n : Nat) (l : List Nat), l.length ≤ n →
    decompress (compress l) = l := by
  intro n
  induction n with
  | zero =>
    intro l hl
    match l with
    | [] => rw [compress, decompress]
  | succ n ih =>
    intro l hl
    match l with
    | [] => rw [compress, decompress]
    | a :: rest =>
      have hl2 : rest.length + 1 ≤ n + 1 := by simpa using hl
      by_cases h3 : 3 ≤ (if runGuard (a :: rest) then runLength a rest 1 else 1)
      · have hguard : runGuard (a :: rest) = true := by
          by_contra hgf
          rw [Bool.not_eq_true] at hgf
          rw [hgf] at h3
          simp at h3
        rw [hguard] at h3
        simp only [if_true] at h3
        rw [compress_cons_run a rest hguard h3]
        obtain ⟨hspec1, hspec2⟩ := runLength_spec a rest 1
        have hrl130 : runLength a rest 1 ≤ 130 := runLength_le_130 a rest 1 (by omega)
        generalize hgen : runLength a rest 1 = rl at h3 hspec1 hspec2 hrl130 ⊢
        have hx : rl - 3 < 128 := by omega
        rw [decompress]
        rw [if_pos (by rw [lor_hi_of_lt _ hx, land_hi_of_lt _ hx]; omega)]
        rw [lor_hi_of_lt _ hx, land_lo_of_lt _ hx]
        rw [ih ((a :: rest).drop rl) (by simp; omega)]
        have hcount : rl - 3 + 3 = rl := by omega
        rw [hcount]
        have hdrop : (a :: rest).drop rl = rest.drop (rl - 1) := by
          have hm : rl = (rl - 1) + 1 := by omega
          conv_lhs => rw [hm]
          rw [List.drop_succ_cons]
        have hrep : List.replicate rl a = a :: List.replicate (rl - 1) a := by
          have hm : rl = (rl - 1) + 1 := by omega
          conv_lhs => rw [hm]
          rw [List.replicate_succ]
        rw [hdrop, hrep]
        simp only [List.cons_append, List.cons.injEq, true_and]
        calc List.replicate (rl - 1) a ++ rest.drop (rl - 1)
            = rest.take (rl - 1) ++ rest.drop (rl - 1) := by rw [hspec2]
          _ = rest := List.take_append_drop _ _
      · have hk1 : 0 < litLen (a :: rest) 0 := compress_lit_pos a rest h3
        rw [compress_cons_lit a rest h3]
        have hk128 : litLen (a :: rest) 0 ≤ 128 := litLen_le_128 (a :: rest) 0 (by omega)
        have hklen : litLen (a :: rest) 0 ≤ (a :: rest).length := by
          have := litLen_le (a :: rest) 0
          omega
        generalize hgen : litLen (a :: rest) 0 = k at hk1 hk128 hklen ⊢
        have hc : k - 1 < 128 := by omega
        rw [decompress_cons]
        rw [if_neg (by rw [land_hi_zero_of_lt _ hc]; simp)]
        rw [land_lo_id_of_lt _ hc]
        have hcnt : k - 1 + 1 = k := by omega
        rw [hcnt]
        have htklen : ((a :: rest).take k).length = k := by
          rw [List.length_take]
          omega
        rw [if_pos (by rw [List.length_append, htklen]; omega)]
        rw [List.take_left' htklen, List.drop_left' htklen]
        rw [ih (rest.drop (k - 1)) (by simp; omega)]
        have hdrop : rest.drop (k - 1) = (a :: rest).drop k := by
          have hm : k = (k - 1) + 1 := by omega
          conv_rhs => rw [hm]
          rw [List.drop_succ_cons]
        rw [hdrop]
        exact List.take_append_drop _ _

/-- C5: `decompress (compress x) = x` for every byte string `x`. -/
theorem uw_c5_ark_roundtrip (l : List Nat) : decompress (compress l) = l :=
  decompress_compress_aux l.length l (Nat.le_refl _)

/-! ## Huffman codec (`uw-strings-packer.py`, `uw-strings-extractor.py`)

Characters are modelled by their code points (`Nat`); the terminator
character `|` is code point 124, the space fallback is 32.  Bitstreams are
`List Bool`, MSB-first as in the files. -/

/-- Huffman node as stored in STRINGS.PAK (`UaHuffNode` in both the packer
and the extractor): `left == 255 and right == 255` marks a leaf for the
packer, while the extractor's decode loop keeps descending only while
`left != 255 and right != 255`. -/
structure HuffNode where
  symbol : Nat
  parent : Nat
  left : Nat
  right : Nat
deriving DecidableEq

/-- Node lookup `self.huffman_nodes[idx]`; out-of-range indices (an
`IndexError` in Python) are mapped to an all-zero node, and are ruled out
by `WFTree` wherever a theorem depends on the lookup. -/
def nodeAt (t : List HuffNode) (idx : Nat) : HuffNode :=
  t.getD idx ⟨0, 0, 0, 0⟩

/-- One symbol decode of `UaGameStrings.load`: starting at node `idx`,
while the node has both children (`left != 255 and right != 255`) read the
next bit and go right on 1, left on 0; stop (returning the node and the
unread bits) at the first node missing a child; `none` when the bits run
out while still descending.  The source's per-byte reads
(`raw & 0x80`, `raw = (raw << 1) & 0xFF`, refill when `bit == 0`) are
flattened into the MSB-first bitstream. -/
def decodeSym (t : List HuffNode) : Nat → List Bool → Option (Nat × List Bool)
  | idx, [] =>
    if (nodeAt t idx).left ≠ 255 ∧ (nodeAt t idx).right ≠ 255 then none
    else some (idx, [])
  | idx, b :: rest =>
    if (nodeAt t idx).left ≠ 255 ∧ (nodeAt t idx).right ≠ 255 then
      decodeSym t (if b then (nodeAt t idx).right else (nodeAt t idx).left) rest
    else some (idx, b :: rest)

/-- One string decode of `UaGameStrings.load`: repeatedly decode a symbol
from the root (node `node_count - 1`); emit it unless it is the terminator
`|` (124), which ends the string (consumed, not emitted).  `fuel` bounds
the number of symbols (the source loop is `while True`); running out of
fuel or of bits yields `none` — an end-of-bitstream in mid-string surfaces
as an error, not as a decoded string. -/
def decodeString (t : List HuffNode) : Nat → List Bool → Option (List Nat)
  | 0, _ => none
  | fuel + 1, bits =>
    match decodeSym t (t.length - 1) bits with
    | none => none
    | some (idx, rest) =>
      if (nodeAt t idx).symbol = 124 then some []
      else
        match decodeString t fuel rest with
        | none => none
        | some s => some ((nodeAt t idx).symbol :: s)

/-- `StringsPacker._generate_huffman_codes`: depth-first traversal from the
root; at a leaf (`left == 255 and right == 255`) record
`huffman_codes[chr(symbol)] = code` (a later leaf with the same symbol
overwrites an earlier one, Python dict semantics); otherwise recurse into
the left child with bit 0 appended when `left != 255`, then into the right
child with bit 1 appended when `right != 255`.  `fuel` bounds the recursion
depth; the source recursion is unbounded (and would exhaust the Python
stack on a cyclic node array). -/
def genCodes (t : List HuffNode) :
    Nat → Nat → List Bool → (Nat → Option (List Bool)) → Nat → Option (List Bool)
  | 0, _, _, m => m
  | fuel + 1, idx, path, m =>
    if (nodeAt t idx).left = 255 ∧ (nodeAt t idx).right = 255 then
      fun c => if c = (nodeAt t idx).symbol then some path else m c
    else
      if (nodeAt t idx).right ≠ 255 then
        genCodes t fuel (nodeAt t idx).right (path ++ [true])
          (if (nodeAt t idx).left ≠ 255 then
            genCodes t fuel (nodeAt t idx).left (path ++ [false]) m else m)
      else
        if (nodeAt t idx).left ≠ 255 then
          genCodes t fuel (nodeAt t idx).left (path ++ [false]) m else m

/-- The packer's character-to-code map, generated from the root node
`len(self.huffman_nodes) - 1` with an empty initial map. -/
def huffmanCodes (t : List HuffNode) (fuel : Nat) : Nat → Option (List Bool) :=
  genCodes t fuel (t.length - 1) [] (fun _ => none)

/-- `s.endswith('|')` on a code-point list. -/
def endsWithBar : List Nat → Bool
  | [] => false
  | [c] => c == 124
  | _ :: c :: rest => endsWithBar (c :: rest)

/-- The per-character bit emission of `StringsPacker.encode_string`: the
character's code when present, otherwise (after a printed warning) the code
for space when that is present, otherwise nothing. -/
def charBits (codes : Nat → Option (List Bool)) (c : Nat) : List Bool :=
  match codes c with
  | some bs => bs
  | none =>
    match codes 32 with
    | some bs => bs
    | none => []

/-- The accumulated `bit_string` of `encode_string` for a string. -/
def stringBits (codes : Nat → Option (List Bool)) (s : List Nat) : List Bool :=
  (s.map (charBits codes)).flatten

/-- `encode_string`'s bit packer applied to one byte's worth of bits:
`current_byte = (current_byte << 1) | int(bit)`. -/
def byteOfBits (bs : List Bool) : Nat :=
  bs.foldl (fun acc b => 2 * acc + (if b then 1 else 0)) 0

/-- `encode_string`'s bit-packing loop: emit a byte for every 8 bits
(MSB-first); a final partial byte is left-shifted so the bits are padded
with zeros on the right. -/
def bitsToBytes : List Bool → List Nat
  | [] => []
  | b0 :: b1 :: b2 :: b3 :: b4 :: b5 :: b6 :: b7 :: rest =>
    byteOfBits [b0, b1, b2, b3, b4, b5, b6, b7] :: bitsToBytes rest
  | bits => [byteOfBits (bits ++ List.replicate (8 - bits.length) false)]

/-- `StringsPacker.encode_string`: append the terminator `|` when the
string does not already end with it, emit the code bits of every character,
and pack them MSB-first into bytes. -/
def encodeString (codes : Nat → Option (List Bool)) (s : List Nat) : List Nat :=
  bitsToBytes (stringBits codes (if endsWithBar s then s else s ++ [124]))

/-- The bits of one byte, MSB first, as the extractor's
`raw & 0x80` / `raw = (raw << 1) & 0xFF` loop reads them. -/
def byteToBits (b : Nat) : List Bool :=
  [b.testBit 7, b.testBit 6, b.testBit 5, b.testBit 4,
   b.testBit 3, b.testBit 2, b.testBit 1, b.testBit 0]

/-- A byte string as the MSB-first bitstream the extractor reads. -/
def bytesToBits (l : List Nat) : List Bool :=
  (l.map byteToBits).flatten

/-- Following the bit path `p` from node `i` in the decoder: every
intermediate node has both children (so the decoder's descend loop
continues) and the final node is a decoder stop node (a missing child)
carrying symbol `c`. -/
def DescendsTo (t : List HuffNode) : Nat → List Bool → Nat → Prop
  | i, [], c =>
    ((nodeAt t i).left = 255 ∨ (nodeAt t i).right = 255) ∧ (nodeAt t i).symbol = c
  | i, b :: p, c =>
    (nodeAt t i).left ≠ 255 ∧ (nodeAt t i).right ≠ 255 ∧
      DescendsTo t (if b then (nodeAt t i).right else (nodeAt t i).left) p c

/-- Well-formed Huffman node array: nonempty, and every node is either a
true leaf (`left = right = 255`, as the packer tests) or has two children
with in-range indices.  This rules out the "half nodes"
(`left = 255, right ≠ 255` or conversely) on which the packer's leaf test
(`and`) and the extractor's descend test (`and` of the negations) disagree,
and rules out child indices that would raise `IndexError`. -/
def WFTree (t : List HuffNode) : Prop :=
  t ≠ [] ∧ ∀ nd ∈ t, (nd.left = 255 ∧ nd.right = 255) ∨
    (nd.left ≠ 255 ∧ nd.right ≠ 255 ∧ nd.left < t.length ∧ nd.right < t.length)

/-! ### Huffman round-trip lemmas -/

theorem descends_decodeSym (t : List HuffNode) :
    ∀ (p : List Bool) (i c : Nat), DescendsTo t i p c →
    ∀ rest, ∃ j, decodeSym t i (p ++ rest) = some (j, rest) ∧ (nodeAt t j).symbol = c
  | [], i, c, h, rest => by
    obtain ⟨hstop, hsym⟩ := h
    refine ⟨i, ?_, hsym⟩
    rw [List.nil_append]
    match rest with
    | [] =>
      rw [decodeSym]
      rw [if_neg (by tauto)]
    | b :: rest2 =>
      rw [decodeSym]
      rw [if_neg (by tauto)]
  | b :: p, i, c, h, rest => by
    obtain ⟨hleft, hright, hdesc⟩ := h
    obtain ⟨j, hj, hjsym⟩ := descends_decodeSym t p _ c hdesc rest
    exact ⟨j, by rw [List.cons_append, decodeSym, if_pos ⟨hleft, hright⟩]; exact hj, hjsym⟩

theorem genCodes_none (t : List HuffNode) :
    ∀ (fuel idx : Nat) (path : List Bool) (m : Nat → Option (List Bool)) (c : Nat),
    genCodes t fuel idx path m c = none → m c = none
  | 0, _, _, _, _, h => h
  | fuel + 1, idx, path, m, c, h => by
    rw [genCodes] at h
    split at h
    · simp only [] at h
      split at h
      · exact absurd h (by simp)
      · exact h
    · split at h
      · have h1 := genCodes_none t fuel _ _ _ c h
        split at h1
        · exact genCodes_none t fuel _ _ _ c h1
        · exact h1
      · split at h
        · exact genCodes_none t fuel _ _ _ c h
        · exact h

theorem genCodes_sound (t : List HuffNode) (hwf : WFTree t) :
    ∀ (fuel idx : Nat) (path : List Bool) (m : Nat → Option (List Bool)) (c : Nat)
    (p : List Bool), idx < t.length → genCodes t fuel idx path m c = some p →
    (∃ q, p = path ++ q ∧ DescendsTo t idx q c) ∨ m c = some p
  | 0, _, _, _, _, _, _, h => Or.inr h
  | fuel + 1, idx, path, m, c, p, hidx, h => by
    have hnd : nodeAt t idx ∈ t := by
      rw [nodeAt, List.getD_eq_getElem _ _ hidx]
      exact List.getElem_mem hidx
    rw [genCodes] at h
    split at h
    · next hleaf =>
      simp only [] at h
      split at h
      · next hc =>
        left
        refine ⟨[], by simpa using h.symm, ?_⟩
        rw [DescendsTo]
        exact ⟨Or.inl hleaf.1, hc.symm⟩
      · exact Or.inr h
    · next hnotleaf =>
      rcases hwf.2 _ hnd with hleaf | ⟨hl, hr, hllt, hrlt⟩
      · exact absurd hleaf hnotleaf
      rw [if_pos hr] at h
      rcases genCodes_sound t hwf fuel _ _ _ c p hrlt h with ⟨q, hq, hd⟩ | hm1
      · left
        exact ⟨true :: q, by simpa [List.append_assoc] using hq,
          ⟨hl, hr, by simpa using hd⟩⟩
      · rw [if_pos hl] at hm1
        rcases genCodes_sound t hwf fuel _ _ _ c p hllt hm1 with ⟨q, hq, hd⟩ | hm
        · left
          exact ⟨false :: q, by simpa [List.append_assoc] using hq,
            ⟨hl, hr, by simpa using hd⟩⟩
        · exact Or.inr hm

theorem genCodes_reach (t : List HuffNode) (hwf : WFTree t) :
    ∀ (q : List Bool) (fuel idx : Nat) (path : List Bool)
    (m : Nat → Option (List Bool)) (c : Nat), idx < t.length →
    DescendsTo t idx q c → q.length < fuel →
    ∃ p, genCodes t fuel idx path m c = some p
  | [], fuel, idx, path, m, c, hidx, hdesc, hfuel => by
    obtain ⟨hstop, hsym⟩ := hdesc
    have hnd : nodeAt t idx ∈ t := by
      rw [nodeAt, List.getD_eq_getElem _ _ hidx]
      exact List.getElem_mem hidx
    have hleaf : (nodeAt t idx).left = 255 ∧ (nodeAt t idx).right = 255 := by
      rcases hwf.2 _ hnd with h | h
      · exact h
      · tauto
    match fuel, hfuel with
    | fuel + 1, _ =>
      rw [genCodes, if_pos hleaf]
      exact ⟨path, by rw [if_pos hsym.symm]⟩
  | b :: q, fuel, idx, path, m, c, hidx, hdesc, hfuel => by
    obtain ⟨hl, hr, hdesc2⟩ := hdesc
    have hnd : nodeAt t idx ∈ t := by
      rw [nodeAt, List.getD_eq_getElem _ _ hidx]
      exact List.getElem_mem hidx
    have hch : (nodeAt t idx).left < t.length ∧ (nodeAt t idx).right < t.length := by
      rcases hwf.2 _ hnd with h | h
      · exact absurd h.1 hl
      · tauto
    match fuel, hfuel with
    | fuel + 1, hfuel =>
      rw [genCodes, if_neg (by tauto), if_pos hr, if_pos hl]
      have hq : q.length < fuel := by simpa using Nat.lt_of_succ_lt_succ hfuel
      cases b with
      | true =>
        exact genCodes_reach t hwf q fuel _ (path ++ [true]) _ c hch.2 (by simpa using hdesc2) hq
      | false =>
        obtain ⟨p1, hp1⟩ :=
          genCodes_reach t hwf q fuel _ (path ++ [false]) m c hch.1 (by simpa using hdesc2) hq
        rcases ho : genCodes t fuel (nodeAt t idx).right (path ++ [true])
            (genCodes t fuel (nodeAt t idx).left (path ++ [false]) m) c with _ | p2
        · exact absurd (genCodes_none t fuel _ _ _ c ho) (by rw [hp1]; simp)
        · exact ⟨p2, rfl⟩

theorem decodeSym_descends (t : List HuffNode) :
    ∀ (bits : List Bool) (i j : Nat) (rest : List Bool),
    decodeSym t i bits = some (j, rest) →
    ∃ q, bits = q ++ rest ∧ DescendsTo t i q ((nodeAt t j).symbol)
  | [], i, j, rest, h => by
    rw [decodeSym] at h
    split at h
    · exact absurd h (by simp)
    · next hstop =>
      simp only [Option.some.injEq, Prod.mk.injEq] at h
      obtain ⟨h1, h2⟩ := h
      subst h1
      subst h2
      refine ⟨[], rfl, ?_, rfl⟩
      tauto
  | b :: bits, i, j, rest, h => by
    rw [decodeSym] at h
    split at h
    · next hcont =>
      obtain ⟨q, hq, hd⟩ := decodeSym_descends t bits _ j rest h
      exact ⟨b :: q, by rw [List.cons_append, hq], ⟨hcont.1, hcont.2, hd⟩⟩
    · next hstop =>
      simp only [Option.some.injEq, Prod.mk.injEq] at h
      obtain ⟨h1, h2⟩ := h
      subst h1
      subst h2
      refine ⟨[], rfl, ?_, rfl⟩
      tauto

theorem decodeString_chars (t : List HuffNode) :
    ∀ (fd : Nat) (bits : List Bool) (s : List Nat),
    decodeString t fd bits = some s →
    (∀ c ∈ s, c ≠ 124 ∧ ∃ q, q.length ≤ bits.length ∧ DescendsTo t (t.length - 1) q c) ∧
    (∃ q, q.length ≤ bits.length ∧ DescendsTo t (t.length - 1) q 124)
  | 0, _, _, h => by exact absurd h (by simp [decodeString])
  | fd + 1, bits, s, h => by
    rw [decodeString] at h
    split at h
    · exact absurd h (by simp)
    next j rest hsym =>
    obtain ⟨q0, hq0, hd0⟩ := decodeSym_descends t bits _ j rest hsym
    have hq0len : q0.length ≤ bits.length := by
      rw [hq0]
      simp
    have hrestlen : rest.length ≤ bits.length := by
      rw [hq0]
      simp
    split at h
    · next hbar =>
      have hs : s = [] := by
        injection h with h1
        exact h1.symm
      subst hs
      refine ⟨by simp, q0, hq0len, ?_⟩
      rw [← hbar]
      exact hd0
    · next hnotbar =>
      split at h
      · exact absurd h (by simp)
      next s2 hrec =>
      have hs : s = (nodeAt t j).symbol :: s2 := by
        injection h with h1
        exact h1.symm
      subst hs
      obtain ⟨hall, qbar, hqbar, hdbar⟩ := decodeString_chars t fd rest s2 hrec
      refine ⟨?_, qbar, Nat.le_trans hqbar hrestlen, hdbar⟩
      intro c hc
      rw [List.mem_cons] at hc
      rcases hc with hc | hc
      · subst hc
        exact ⟨hnotbar, q0, hq0len, hd0⟩
      · obtain ⟨hne, q, hql, hqd⟩ := hall c hc
        exact ⟨hne, q, Nat.le_trans hql hrestlen, hqd⟩

theorem noBar_endsWithBar : ∀ (s : List Nat), (∀ c ∈ s, c ≠ 124) → endsWithBar s = false
  | [], _ => rfl
  | [c], h => by
    rw [endsWithBar]
    simpa using h c (by simp)
  | a :: c :: rest, h => by
    rw [endsWithBar]
    exact noBar_endsWithBar (c :: rest) (fun x hx => h x (by simp at hx ⊢; tauto))

theorem endsWithBar_append : ∀ (s : List Nat), endsWithBar (s ++ [124]) = true
  | [] => rfl
  | [c] => rfl
  | a :: c :: rest => by
    have := endsWithBar_append (c :: rest)
    simpa [endsWithBar] using this

theorem byteToBits_byteOfBits :
    ∀ (b0 b1 b2 b3 b4 b5 b6 b7 : Bool),
    byteToBits (byteOfBits [b0, b1, b2, b3, b4, b5, b6, b7]) =
      [b0, b1, b2, b3, b4, b5, b6, b7] := by
  decide

theorem bytesToBits_bitsToBytes : ∀ (bits : List Bool),
    bytesToBits (bitsToBytes bits) =
      bits ++ List.replicate ((8 - bits.length % 8) % 8) false
  | [] => by decide
  | [b0] => by revert b0; decide
  | [b0, b1] => by revert b0 b1; decide
  | [b0, b1, b2] => by revert b0 b1 b2; decide
  | [b0, b1, b2, b3] => by revert b0 b1 b2 b3; decide
  | [b0, b1, b2, b3, b4] => by revert b0 b1 b2 b3 b4; decide
  | [b0, b1, b2, b3, b4, b5] => by revert b0 b1 b2 b3 b4 b5; decide
  | [b0, b1, b2, b3, b4, b5, b6] => by revert b0 b1 b2 b3 b4 b5 b6; decide
  | b0 :: b1 :: b2 :: b3 :: b4 :: b5 :: b6 :: b7 :: rest => by
    have ih := bytesToBits_bitsToBytes rest
    rw [bitsToBytes]
    have hexp : bytesToBits (byteOfBits [b0, b1, b2, b3, b4, b5, b6, b7] :: bitsToBytes rest) =
        byteToBits (byteOfBits [b0, b1, b2, b3, b4, b5, b6, b7]) ++ bytesToBits (bitsToBytes rest) := by
      rw [bytesToBits, List.map_cons, List.flatten_cons]
      rfl
    rw [hexp, byteToBits_byteOfBits, ih]
    have hmod : ((b0 :: b1 :: b2 :: b3 :: b4 :: b5 :: b6 :: b7 :: rest).length % 8)
        = rest.length % 8 := by
      simp only [List.length_cons]
      omega
    rw [hmod]
    simp

theorem decode_encoded (t : List HuffNode) (codes : Nat → Option (List Bool)) :
    ∀ (s : List Nat) (extra : List Bool),
    (∀ c ∈ s, c ≠ 124 ∧ ∃ p, codes c = some p ∧ DescendsTo t (t.length - 1) p c) →
    (∃ pb, codes 124 = some pb ∧ DescendsTo t (t.length - 1) pb 124) →
    decodeString t (s.length + 1) (stringBits codes (s ++ [124]) ++ extra) = some s
  | [], extra, _, hbar => by
    obtain ⟨pb, hpb, hdb⟩ := hbar
    have hbits : stringBits codes ([] ++ [124]) ++ extra = pb ++ extra := by
      simp [stringBits, charBits, hpb]
    rw [hbits]
    obtain ⟨j, hj, hjs⟩ := descends_decodeSym t pb _ 124 hdb extra
    rw [decodeString]
    simp only [hj]
    rw [if_pos hjs]
  | c :: s, extra, hall, hbar => by
    obtain ⟨hc124, p, hp, hdp⟩ := hall c (by simp)
    have hbits : stringBits codes ((c :: s) ++ [124]) ++ extra =
        p ++ (stringBits codes (s ++ [124]) ++ extra) := by
      simp [stringBits, charBits, hp]
    rw [hbits]
    obtain ⟨j, hj, hjs⟩ := descends_decodeSym t p _ c hdp (stringBits codes (s ++ [124]) ++ extra)
    rw [decodeString]
    simp only [List.length_cons, hj]
    rw [if_neg (by rw [hjs]; exact hc124)]
    have hih := decode_encoded t codes s extra (fun x hx => hall x (by simp [hx])) hbar
    simp only [hih, hjs]

/-- Four-node tree exhibiting the packer/extractor leaf-test disagreement:
node 2 is a "half node" (`left = 255`, `right = 1`) carrying symbol 88
(the letter X); the extractor stops there and emits X, while the packer
passes through it and assigns no code to X at all.  Node 3 is the root,
node 0 a `|` leaf, node 1 an `a` leaf. -/
def cexTree : List HuffNode :=
  [⟨124, 3, 255, 255⟩, ⟨97, 2, 255, 255⟩, ⟨88, 3, 255, 1⟩, ⟨0, 0, 2, 0⟩]

/-- Well-formed three-node tree (leaves `a` and `|` under the root) used to
witness the amended round-trip theorem. -/
def wtTree : List HuffNode :=
  [⟨97, 2, 255, 255⟩, ⟨124, 2, 255, 255⟩, ⟨0, 0, 0, 1⟩]

/-- C4 (counterexample): for the half-node tree `cexTree`, the string "X"
(code point 88) is the result of decoding the bitstream 01 with terminator,
but encoding it with the code map derived from that same tree and decoding
again yields the empty string, not "X": the claim fails as stated for
arbitrary node arrays. -/
theorem uw_c4_counterexample :
    decodeString cexTree 2 [false, true] = some [88] ∧
    decodeString cexTree 2
      (bytesToBits (encodeString (huffmanCodes cexTree 4) [88])) = some [] ∧
    (some [] : Option (List Nat)) ≠ some [88] := by
  refine ⟨by decide, by decide, by decide⟩

/-- C4 (amended): for a well-formed tree — nonempty, every node either a
leaf (`left = right = 255`) or with two in-range children — and every
string S obtained by decoding some bitstream down to the `|` terminator,
encoding S with the code map derived from the same tree (with recursion
allowance exceeding the bitstream length) and decoding the packed bytes
yields S again; the terminator is appended on encode and consumed but not
emitted on decode. -/
theorem uw_c4_huffman_roundtrip (t : List HuffNode) (hwf : WFTree t)
    (fd F : Nat) (bits : List Bool) (s : List Nat)
    (hdec : decodeString t fd bits = some s) (hF : bits.length < F) :
    decodeString t (s.length + 1)
      (bytesToBits (encodeString (huffmanCodes t F) s)) = some s := by
  obtain ⟨hall, qb, hqb, hdb⟩ := decodeString_chars t fd bits s hdec
  have hroot : t.length - 1 < t.length := by
    have h1 : 0 < t.length := List.length_pos.mpr hwf.1
    omega
  have hcodes : ∀ c ∈ s, c ≠ 124 ∧
      ∃ p, huffmanCodes t F c = some p ∧ DescendsTo t (t.length - 1) p c := by
    intro c hc
    obtain ⟨hne, q, hql, hdq⟩ := hall c hc
    refine ⟨hne, ?_⟩
    obtain ⟨p, hp⟩ :=
      genCodes_reach t hwf q F (t.length - 1) [] (fun _ => none) c hroot hdq (by omega)
    refine ⟨p, hp, ?_⟩
    rcases genCodes_sound t hwf F (t.length - 1) [] (fun _ => none) c p hroot hp with
      ⟨q2, hq2, hd2⟩ | hm
    · simpa [hq2] using hd2
    · simp at hm
  have hbarcode : ∃ pb, huffmanCodes t F 124 = some pb ∧
      DescendsTo t (t.length - 1) pb 124 := by
    obtain ⟨p, hp⟩ :=
      genCodes_reach t hwf qb F (t.length - 1) [] (fun _ => none) 124 hroot hdb (by omega)
    refine ⟨p, hp, ?_⟩
    rcases genCodes_sound t hwf F (t.length - 1) [] (fun _ => none) 124 p hroot hp with
      ⟨q2, hq2, hd2⟩ | hm
    · simpa [hq2] using hd2
    · simp at hm
  have hnobar : endsWithBar s = false := noBar_endsWithBar s (fun c hc => (hall c hc).1)
  rw [encodeString, hnobar]
  rw [if_neg (by simp)]
  rw [bytesToBits_bitsToBytes]
  exact decode_encoded t (huffmanCodes t F) s _ hcodes hbarcode

/-- C4 witness: the amended theorem applied to the concrete well-formed
tree `wtTree`, whose bitstream 01 decodes to "a" (code point 97). -/
theorem uw_c4_huffman_roundtrip_witness :
    WFTree wtTree ∧
    decodeString wtTree 2 [false, true] = some [97] ∧
    decodeString wtTree 2
      (bytesToBits (encodeString (huffmanCodes wtTree 3) [97])) = some [97] :=
  ⟨by unfold WFTree; decide, by decide,
    uw_c4_huffman_roundtrip wtTree (by unfold WFTree; decide) 2 3 [false, true] [97]
      (by decide) (by decide)⟩

/-- C10: `encode_string` appends the `|` terminator only when the input
does not already end with one, so a string without a trailing terminator
and the same string with one appended produce byte-identical encodings. -/
theorem uw_c10_terminator_not_injective (codes : Nat → Option (List Bool))
    (s : List Nat) (h : endsWithBar s = false) :
    encodeString codes s = encodeString codes (s ++ [124]) := by
  rw [encodeString, encodeString, h, endsWithBar_append s]
  rw [if_neg (by simp), if_pos rfl]

/-- C10 witness: the encoder maps "a" and "a|" to the same bytes under the
well-formed tree's code map. -/
theorem uw_c10_terminator_not_injective_witness :
    encodeString (huffmanCodes wtTree 3) [97] =
      encodeString (huffmanCodes wtTree 3) ([97] ++ [124]) :=
  uw_c10_terminator_not_injective (huffmanCodes wtTree 3) [97] (by decide)

/-! ## Conversation VM (`uw_cnv_runner.py`, class `UltimaUnderworldVM`)

Python ints are `Int` (the source performs no 16-bit reduction of values);
the 65536-cell `self.memory` list is a total map `Int → Int` addressed
through the source's own wrapping helpers (`get_mem` / `set_mem`) plus
Python's negative-index list semantics.  The debug-only `self.stack`
shadow list (never read by any opcode's semantics) is not modelled.
`self.stdin` models the console lines consumed by the blocking `input()`
calls inside imported functions; `out` records the strings emitted by
`SAY_OP` (the source prints them as `NPC: "<text>"`). -/

/-- Python list indexing into a 65536-element list: a negative index
counts from the end.  (Indices below `-65536` or at `65536` and above
raise `IndexError` in Python; the callers below pre-reduce the address,
and the theorems stay inside the valid range.) -/
def pyListIdx (a : Int) : Int :=
  if a < 0 then a + 65536 else a

/-- A memory image: cell contents by index. -/
def Mem : Type := Int → Int

/-- `UltimaUnderworldVM.get_mem`: addresses at or above 65536 are reduced
modulo 65536 before indexing. -/
def get_mem (m : Mem) (addr : Int) : Int :=
  m (pyListIdx (if 65536 ≤ addr then addr % 65536 else addr))

/-- `UltimaUnderworldVM.set_mem`: addresses at or above 65536 have 65536
subtracted once (not reduced modulo) before indexing. -/
def set_mem (m : Mem) (addr v : Int) : Mem :=
  fun x => if x = pyListIdx (if 65536 ≤ addr then addr - 65536 else addr) then v else m x

/-- VM state: the fields of `UltimaUnderworldVM` that the opcode handlers
read or write. -/
structure VM where
  memory : Mem
  stack_pointer : Int
  base_pointer : Int
  result_register : Int
  pc : Int
  call_level : Int
  code : List Int
  finished : Bool
  waiting_response : Bool
  current_string_block : Option (List String)
  out : List String
  stdin : List String

/-- `self.code[i]` for the in-range indices every run below stays in
(Python would wrap small negative indices and raise beyond that). -/
def codeAt (vm : VM) (i : Int) : Int :=
  vm.code.getD i.toNat 0

/-- `UltimaUnderworldVM.push`. -/
def vmPush (vm : VM) (v : Int) : VM :=
  { vm with memory := set_mem vm.memory vm.stack_pointer v,
            stack_pointer := vm.stack_pointer + 1 }

/-- `UltimaUnderworldVM.pop`: decrement SP, read the cell there. -/
def vmPop (vm : VM) : Int × VM :=
  (get_mem vm.memory (vm.stack_pointer - 1),
   { vm with stack_pointer := vm.stack_pointer - 1 })

/-- `input()`: consume the next pending console line (Python raises
`EOFError` when none is left; the theorems always supply enough lines,
and an exhausted queue reads as the empty string here). -/
def readLine (vm : VM) : String × VM :=
  match vm.stdin with
  | [] => ("", vm)
  | l :: rest => (l, { vm with stdin := rest })

/-! ### Text substitution (`process_text_substitutions`) -/

/-- Value of a digit run, most significant first. -/
def digitsVal (ds : List Char) : Nat :=
  ds.foldl (fun acc c => 10 * acc + (c.toNat - 48)) 0

/-- Match the tail of a substitution directive after the `@`: a source
letter `G`/`S`/`P`, a type letter `S`/`I`, and a signed decimal number
(regex `([GSP])([SI])(-?\d+)`, `\d+` greedy).  Returns the three captured
pieces and the unconsumed characters. -/
def parseDirective (cs : List Char) : Option (Char × Char × Int × List Char) :=
  match cs with
  | x :: y :: rest =>
    if (x = 'G' ∨ x = 'S' ∨ x = 'P') ∧ (y = 'S' ∨ y = 'I') then
      let neg : Bool := match rest with
        | '-' :: _ => true
        | _ => false
      let rest2 := if neg then rest.drop 1 else rest
      let ds := rest2.takeWhile (fun c => c.isDigit)
      if ds = [] then none
      else some (x, y, (if neg then -(digitsVal ds : Int) else (digitsVal ds : Int)),
        rest2.drop ds.length)
    else none
  | _ => none

/-- `self.huffman`-free string fetch `get_string_raw`: the raw block entry
without substitution processing. -/
def get_string_raw (vm : VM) (string_id : Int) : String :=
  match vm.current_string_block with
  | none => "[No string block loaded]"
  | some b =>
    if 0 ≤ string_id ∧ string_id < b.length then b.getD string_id.toNat ""
    else "[Invalid string ID: " ++ toString string_id ++ "]"

/-- The replacement computed by `substitute_match` for a parsed directive:
`S` reads `mem[BP + num]`, `G` reads `mem[num]`, `P` reads
`mem[mem[BP + num]]`; type `I` formats the cell as a decimal integer
(`str(value)`), type `S` looks the cell up as a raw string id. -/
def substValue (vm : VM) (src typ : Char) (num : Int) : String :=
  if src = 'S' then
    let value := get_mem vm.memory (vm.base_pointer + num)
    if typ = 'I' then toString value else get_string_raw vm value
  else if src = 'G' then
    let value := get_mem vm.memory num
    if typ = 'I' then toString value else get_string_raw vm value
  else
    let value := get_mem vm.memory (get_mem vm.memory (vm.base_pointer + num))
    if typ = 'I' then toString value else get_string_raw vm value

/-- The `re.sub` scan: left to right, non-overlapping; a directive must
begin with `@`, and an `@` that does not start a full match is kept
verbatim.  `fuel` bounds the scan; every step consumes at least one input
character, so `length + 1` fuel is never exhausted. -/
def processSubst (vm : VM) : Nat → List Char → List Char
  | 0, cs => cs
  | _ + 1, [] => []
  | fuel + 1, c :: rest =>
    if c = '@' then
      match parseDirective rest with
      | some (src, typ, num, remaining) =>
        (substValue vm src typ num).data ++ processSubst vm fuel remaining
      | none => c :: processSubst vm fuel rest
    else c :: processSubst vm fuel rest

/-- `UltimaUnderworldVM.process_text_substitutions`. -/
def process_text_substitutions (vm : VM) (text : String) : String :=
  String.mk (processSubst vm (text.data.length + 1) text.data)

/-- `UltimaUnderworldVM.get_string`: block entry with substitutions. -/
def get_string (vm : VM) (string_id : Int) : String :=
  match vm.current_string_block with
  | none => "[No string block loaded]"
  | some b =>
    if 0 ≤ string_id ∧ string_id < b.length then
      process_text_substitutions vm (b.getD string_id.toNat "")
    else "[Invalid string ID: " ++ toString string_id ++ "]"

/-! ### Opcode handlers -/

def op_nop (vm : VM) : VM := { vm with pc := vm.pc + 1 }

/-- `OPADD`: pop `b`, pop `a`, push `a + b` (the exact integer sum; the
source performs no reduction modulo 2^16). -/
def op_add (vm : VM) : VM :=
  let (b, vm1) := vmPop vm
  let (a, vm2) := vmPop vm1
  let vm3 := vmPush vm2 (a + b)
  { vm3 with pc := vm3.pc + 1 }

/-- `OPMUL`: pop `b`, pop `a`, push the exact product `a * b`. -/
def op_mul (vm : VM) : VM :=
  let (b, vm1) := vmPop vm
  let (a, vm2) := vmPop vm1
  let vm3 := vmPush vm2 (a * b)
  { vm3 with pc := vm3.pc + 1 }

/-- `OPSUB`: pop `b`, pop `a`, push the exact difference `a - b`. -/
def op_sub (vm : VM) : VM :=
  let (b, vm1) := vmPop vm
  let (a, vm2) := vmPop vm1
  let vm3 := vmPush vm2 (a - b)
  { vm3 with pc := vm3.pc + 1 }

/-- `OPDIV`: floor division `a // b`, 0 on division by zero. -/
def op_div (vm : VM) : VM :=
  let (b, vm1) := vmPop vm
  let (a, vm2) := vmPop vm1
  let vm3 := vmPush vm2 (if b = 0 then 0 else Int.fdiv a b)
  { vm3 with pc := vm3.pc + 1 }

/-- `OPMOD`: Python `%` (sign of the divisor), 0 on division by zero. -/
def op_mod (vm : VM) : VM :=
  let (b, vm1) := vmPop vm
  let (a, vm2) := vmPop vm1
  let vm3 := vmPush vm2 (if b = 0 then 0 else Int.fmod a b)
  { vm3 with pc := vm3.pc + 1 }

def op_or (vm : VM) : VM :=
  let (b, vm1) := vmPop vm
  let (a, vm2) := vmPop vm1
  let vm3 := vmPush vm2 (Int.lor a b)
  { vm3 with pc := vm3.pc + 1 }

def op_and (vm : VM) : VM :=
  let (b, vm1) := vmPop vm
  let (a, vm2) := vmPop vm1
  let vm3 := vmPush vm2 (Int.land a b)
  { vm3 with pc := vm3.pc + 1 }

def op_not (vm : VM) : VM :=
  let (a, vm1) := vmPop vm
  let vm2 := vmPush vm1 (if a = 0 then 1 else 0)
  { vm2 with pc := vm2.pc + 1 }

def op_tstgt (vm : VM) : VM :=
  let (b, vm1) := vmPop vm
  let (a, vm2) := vmPop vm1
  let vm3 := vmPush vm2 (if a > b then 1 else 0)
  { vm3 with pc := vm3.pc + 1 }

def op_tstge (vm : VM) : VM :=
  let (b, vm1) := vmPop vm
  let (a, vm2) := vmPop vm1
  let vm3 := vmPush vm2 (if a ≥ b then 1 else 0)
  { vm3 with pc := vm3.pc + 1 }

def op_tstlt (vm : VM) : VM :=
  let (b, vm1) := vmPop vm
  let (a, vm2) := vmPop vm1
  let vm3 := vmPush vm2 (if a < b then 1 else 0)
  { vm3 with pc := vm3.pc + 1 }

def op_tstle (vm : VM) : VM :=
  let (b, vm1) := vmPop vm
  let (a, vm2) := vmPop vm1
  let vm3 := vmPush vm2 (if a ≤ b then 1 else 0)
  { vm3 with pc := vm3.pc + 1 }

def op_tsteq (vm : VM) : VM :=
  let (b, vm1) := vmPop vm
  let (a, vm2) := vmPop vm1
  let vm3 := vmPush vm2 (if a = b then 1 else 0)
  { vm3 with pc := vm3.pc + 1 }

def op_tstne (vm : VM) : VM :=
  let (b, vm1) := vmPop vm
  let (a, vm2) := vmPop vm1
  let vm3 := vmPush vm2 (if a ≠ b then 1 else 0)
  { vm3 with pc := vm3.pc + 1 }

/-- `JMP`: absolute target from the operand word. -/
def op_jmp (vm : VM) : VM :=
  { vm with pc := codeAt vm (vm.pc + 1) }

/-- `BEQ`: pop; when the value is zero set `pc := pc + offset` — the
source adds the offset to the pc of the *branch instruction itself*
(`self.pc = self.pc + offset`), despite its comment saying the offset is
relative to the following instruction; otherwise `pc += 2`. -/
def op_beq (vm : VM) : VM :=
  let offset := codeAt vm (vm.pc + 1)
  let (value, vm1) := vmPop vm
  if value = 0 then { vm1 with pc := vm1.pc + offset }
  else { vm1 with pc := vm1.pc + 2 }

/-- `BNE`: like `BEQ` with the test inverted. -/
def op_bne (vm : VM) : VM :=
  let offset := codeAt vm (vm.pc + 1)
  let (value, vm1) := vmPop vm
  if value ≠ 0 then { vm1 with pc := vm1.pc + offset }
  else { vm1 with pc := vm1.pc + 2 }

/-- `BRA`: unconditional `pc := pc + offset` (same addition as `BEQ`). -/
def op_bra (vm : VM) : VM :=
  let offset := codeAt vm (vm.pc + 1)
  { vm with pc := vm.pc + offset }

/-- `CALL`: push the return address `pc + 2`, jump to the absolute target,
increment the call level. -/
def op_call (vm : VM) : VM :=
  let target := codeAt vm (vm.pc + 1)
  let vm1 := vmPush vm (vm.pc + 2)
  { vm1 with pc := target, call_level := vm1.call_level + 1 }

/-- `finish_conversation`: mark the conversation finished (the source also
prints a message and snapshots the per-conversation memory slots for
debugging; neither affects the machine state). -/
def finish_conversation (vm : VM) : VM :=
  { vm with finished := true }

/-- `RET`: decrement the call level first; if it drops below 0, finish the
conversation without touching the stack; otherwise pop the return address
and jump to it. -/
def op_ret (vm : VM) : VM :=
  let vm0 := { vm with call_level := vm.call_level - 1 }
  if vm0.call_level < 0 then finish_conversation vm0
  else
    let (return_addr, vm1) := vmPop vm0
    { vm1 with pc := return_addr }

def op_pushi (vm : VM) : VM :=
  let vm1 := vmPush vm (codeAt vm (vm.pc + 1))
  { vm1 with pc := vm1.pc + 2 }

/-- `PUSHI_EFF`: push `BP + offset` for a non-negative operand; for a
negative operand the source first decrements the offset once more (skip
over the saved base pointer) and pushes `BP + (offset - 1)`. -/
def op_pushi_eff (vm : VM) : VM :=
  let offset := codeAt vm (vm.pc + 1)
  let effective_addr := if 0 ≤ offset then vm.base_pointer + offset
    else vm.base_pointer + (offset - 1)
  let vm1 := vmPush vm effective_addr
  { vm1 with pc := vm1.pc + 2 }

def op_pop (vm : VM) : VM :=
  let (_, vm1) := vmPop vm
  { vm1 with pc := vm1.pc + 1 }

def op_swap (vm : VM) : VM :=
  let (b, vm1) := vmPop vm
  let (a, vm2) := vmPop vm1
  let vm3 := vmPush (vmPush vm2 b) a
  { vm3 with pc := vm3.pc + 1 }

def op_pushbp (vm : VM) : VM :=
  let vm1 := vmPush vm vm.base_pointer
  { vm1 with pc := vm1.pc + 1 }

def op_popbp (vm : VM) : VM :=
  let (new_bp, vm1) := vmPop vm
  { vm1 with base_pointer := new_bp, pc := vm1.pc + 1 }

def op_sptobp (vm : VM) : VM :=
  { vm with base_pointer := vm.stack_pointer, pc := vm.pc + 1 }

def op_bptosp (vm : VM) : VM :=
  { vm with stack_pointer := vm.base_pointer, pc := vm.pc + 1 }

/-- Push `n` zero cells (the loop body of `ADDSP`). -/
def pushZeros : VM → Nat → VM
  | vm, 0 => vm
  | vm, n + 1 => pushZeros (vmPush vm 0) n

/-- `ADDSP`: pop `count`, push `count + 1` zero cells (`range(count + 1)`;
for a negative count the Python range is empty). -/
def op_addsp (vm : VM) : VM :=
  let (count, vm1) := vmPop vm
  let vm2 := pushZeros vm1 (count + 1).toNat
  { vm2 with pc := vm2.pc + 1 }

def op_fetchm (vm : VM) : VM :=
  let (addr, vm1) := vmPop vm
  let vm2 := vmPush vm1 (get_mem vm1.memory addr)
  { vm2 with pc := vm2.pc + 1 }

def op_sto (vm : VM) : VM :=
  let (value, vm1) := vmPop vm
  let (addr, vm2) := vmPop vm1
  { vm2 with memory := set_mem vm2.memory addr value, pc := vm2.pc + 1 }

def op_offset (vm : VM) : VM :=
  let (index, vm1) := vmPop vm
  let (base_addr, vm2) := vmPop vm1
  let vm3 := vmPush vm2 (base_addr + index - 1)
  { vm3 with pc := vm3.pc + 1 }

def op_start (vm : VM) : VM := { vm with pc := vm.pc + 1 }

def op_save_reg (vm : VM) : VM :=
  let (value, vm1) := vmPop vm
  { vm1 with result_register := value, pc := vm1.pc + 1 }

def op_push_reg (vm : VM) : VM :=
  let vm1 := vmPush vm vm.result_register
  { vm1 with pc := vm1.pc + 1 }

/-- `EXIT_OP`: finish; the pc is not advanced (the loop stops on the
finished flag). -/
def op_exit_op (vm : VM) : VM :=
  finish_conversation vm

/-- `SAY_OP`: pop a string id, fetch the string with substitutions, and
print it (`NPC: "<text>"`) unless no string block is loaded; `out` records
the emitted text. -/
def op_say_op (vm : VM) : VM :=
  let (string_id, vm1) := vmPop vm
  let text := get_string vm1 string_id
  let vm2 := if text ≠ "[No string block loaded]" then { vm1 with out := vm1.out ++ [text] }
    else vm1
  { vm2 with pc := vm2.pc + 1 }

/-- `OPNEG`: pop and push the exact negation (no two's-complement
reduction in the source). -/
def op_opneg (vm : VM) : VM :=
  let (value, vm1) := vmPop vm
  let vm2 := vmPush vm1 (-value)
  { vm2 with pc := vm2.pc + 1 }

/-! ### Imported functions and the `CALLI` protocol -/

/-- The option scan of `func_babl_menu`: read string ids at `ptr + i`
until a zero cell.  The source loop is unbounded (`while True`); because
`get_mem` wraps addresses modulo 65536 it revisits the same cells after
65536 steps, so 65536 fuel reaches the first zero whenever one exists and
the Python loop diverges otherwise. -/
def scanOptions (vm : VM) (ptr : Int) : Nat → Int → List Int
  | 0, _ => []
  | fuel + 1, i =>
    let string_id := get_mem vm.memory (ptr + i)
    if string_id = 0 then []
    else string_id :: scanOptions vm ptr fuel (i + 1)

/-- The scan of `func_babl_fmenu`: at each index until a zero string id,
record the 1-based index when its flag cell is 1 (only enabled options are
offered; `valid_indices` collects their original indices). -/
def scanFMenu (vm : VM) (string_ptr flag_ptr : Int) : Nat → Int → List Int
  | 0, _ => []
  | fuel + 1, i =>
    let string_id := get_mem vm.memory (string_ptr + i)
    if string_id = 0 then []
    else
      let flag := get_mem vm.memory (flag_ptr + i)
      if flag = 1 then (i + 1) :: scanFMenu vm string_ptr flag_ptr fuel (i + 1)
      else scanFMenu vm string_ptr flag_ptr fuel (i + 1)

/-- `func_babl_menu` (imported id 0): pop the argument count and the
option-array pointer, collect the options, set `waiting_response`, then
*block on console input in the same call* (`input(...)`), parse the reply
(`int(...)`, any parse failure or out-of-range value defaults the choice
to 1), store it in the result register, and clear `waiting_response`
before returning.  The handler never returns in the waiting state. -/
def func_babl_menu (vm : VM) : VM :=
  let (_num_args, vm1) := vmPop vm
  let (string_array_ptr, vm2) := vmPop vm1
  let options := scanOptions vm2 string_array_ptr 65536 0
  let vm3 := { vm2 with waiting_response := true }
  let (choice, vm4) := readLine vm3
  let rr : Int := match choice.toInt? with
    | some n => if 1 ≤ n ∧ n ≤ options.length then n else 1
    | none => 1
  { vm4 with result_register := rr, waiting_response := false }

/-- `func_babl_fmenu` (imported id 1): pop the count, the string-array
pointer and the flag-array pointer; collect the enabled options' original
indices; block on console input; a reply `n` in range selects
`valid_indices[n - 1]`, anything else defaults to the first enabled index
(or 0 when none); `waiting_response` is cleared before returning. -/
def func_babl_fmenu (vm : VM) : VM :=
  let (_num_args, vm1) := vmPop vm
  let (string_array_ptr, vm2) := vmPop vm1
  let (flag_array_ptr, vm3) := vmPop vm2
  let valid_indices := scanFMenu vm3 string_array_ptr flag_array_ptr 65536 0
  let vm4 := { vm3 with waiting_response := true }
  let (choice, vm5) := readLine vm4
  let rr : Int := match choice.toInt? with
    | some n =>
      if 1 ≤ n ∧ n ≤ valid_indices.length then valid_indices.getD (n - 1).toNat 0
      else valid_indices.headD 0
    | none => valid_indices.headD 0
  { vm5 with result_register := rr, waiting_response := false }

/-- `func_babl_ask` (imported id 3): set `waiting_response`, block on
console input, store the dummy string id 100 in the result register, and
clear `waiting_response` before returning. -/
def func_babl_ask (vm : VM) : VM :=
  let vm1 := { vm with waiting_response := true }
  let (_text, vm2) := readLine vm1
  { vm2 with result_register := 100, waiting_response := false }

/-- The key set of `self.imported_functions` as registered in
`UltimaUnderworldVM.__init__` (ids 6, 8, 9, 10, 12, 13, 14, 35 and 46 are
absent). -/
def importedIds : List Int :=
  [0, 1, 2, 3, 4, 5, 7, 11, 15, 16, 17, 18, 19, 20, 21, 22, 23, 24, 25, 26,
   27, 28, 29, 30, 31, 32, 33, 34, 36, 37, 38, 39, 40, 41, 42, 43, 44, 45,
   47, 48, 49, 50]

/-- `CALLI`: look the operand id up in the handler table (a parameter of
the embedding; `importedIds` is its domain for the source's table); run
the handler when present, otherwise only print
`WARNING: Unknown function ID` and leave the state untouched; in *both*
cases push the result register afterwards and advance the pc by 2. -/
def op_calli (table : Int → Option (VM → VM)) (vm : VM) : VM :=
  let func_id := codeAt vm (vm.pc + 1)
  let vm1 := match table func_id with
    | some f => f vm
    | none => vm
  let vm2 := vmPush vm1 vm1.result_register
  { vm2 with pc := vm2.pc + 2 }

/-! ### Dispatch and the execution loop -/

/-- The key set of `self.opcode_handlers` (`init_opcode_handlers`):
0x00–0x24, 0x26, 0x27 and 0x29.  0x25 (`STRCMP`) and 0x28 (`RESPOND_OP`)
have no handler. -/
def handledOpcodes : List Int :=
  [0x00, 0x01, 0x02, 0x03, 0x04, 0x05, 0x06, 0x07, 0x08, 0x09, 0x0A, 0x0B,
   0x0C, 0x0D, 0x0E, 0x0F, 0x10, 0x11, 0x12, 0x13, 0x14, 0x15, 0x16, 0x17,
   0x18, 0x19, 0x1A, 0x1B, 0x1C, 0x1D, 0x1E, 0x1F, 0x20, 0x21, 0x22, 0x23,
   0x24, 0x26, 0x27, 0x29]

/-- One dispatch of the `execute` loop body: run the opcode's handler, or,
for an opcode with no handler (such as `RESPOND_OP`), print
`Unknown opcode` and advance the pc by 1. -/
def dispatchOp (table : Int → Option (VM → VM)) (op : Int) (vm : VM) : VM :=
  if op = 0x00 then op_nop vm
  else if op = 0x01 then op_add vm
  else if op = 0x02 then op_mul vm
  else if op = 0x03 then op_sub vm
  else if op = 0x04 then op_div vm
  else if op = 0x05 then op_mod vm
  else if op = 0x06 then op_or vm
  else if op = 0x07 then op_and vm
  else if op = 0x08 then op_not vm
  else if op = 0x09 then op_tstgt vm
  else if op = 0x0A then op_tstge vm
  else if op = 0x0B then op_tstlt vm
  else if op = 0x0C then op_tstle vm
  else if op = 0x0D then op_tsteq vm
  else if op = 0x0E then op_tstne vm
  else if op = 0x0F then op_jmp vm
  else if op = 0x10 then op_beq vm
  else if op = 0x11 then op_bne vm
  else if op = 0x12 then op_bra vm
  else if op = 0x13 then op_call vm
  else if op = 0x14 then op_calli table vm
  else if op = 0x15 then op_ret vm
  else if op = 0x16 then op_pushi vm
  else if op = 0x17 then op_pushi_eff vm
  else if op = 0x18 then op_pop vm
  else if op = 0x19 then op_swap vm
  else if op = 0x1A then op_pushbp vm
  else if op = 0x1B then op_popbp vm
  else if op = 0x1C then op_sptobp vm
  else if op = 0x1D then op_bptosp vm
  else if op = 0x1E then op_addsp vm
  else if op = 0x1F then op_fetchm vm
  else if op = 0x20 then op_sto vm
  else if op = 0x21 then op_offset vm
  else if op = 0x22 then op_start vm
  else if op = 0x23 then op_save_reg vm
  else if op = 0x24 then op_push_reg vm
  else if op = 0x26 then op_exit_op vm
  else if op = 0x27 then op_say_op vm
  else if op = 0x29 then op_opneg vm
  else { vm with pc := vm.pc + 1 }

/-- One iteration of the `execute` loop: dispatch on the opcode at the pc,
then set the finished flag when the pc has run past the end of the code
(the safety check at the loop's bottom). -/
def execStep (table : Int → Option (VM → VM)) (vm : VM) : VM :=
  let vm1 := dispatchOp table (codeAt vm vm.pc) vm
  if (vm1.code.length : Int) ≤ vm1.pc then { vm1 with finished := true } else vm1

/-- The `execute` loop: iterate while not finished, not waiting for a
response, and the pc is inside the code.  `fuel` bounds the number of
iterations of the source's unbounded `while`. -/
def execLoop (table : Int → Option (VM → VM)) : Nat → VM → VM
  | 0, vm => vm
  | fuel + 1, vm =>
    if vm.finished = false ∧ vm.waiting_response = false ∧ vm.pc < (vm.code.length : Int) then
      execLoop table fuel (execStep table vm)
    else vm

/-- `UltimaUnderworldVM.execute`: reset the pc to 0, then loop. -/
def execute (table : Int → Option (VM → VM)) (fuel : Nat) (vm : VM) : VM :=
  execLoop table fuel { vm with pc := 0 }

/-- `UltimaUnderworldVM.resume_conversation`: store the host-supplied
choice (when given) in the result register, clear `waiting_response`, and
call `execute` — which restarts the pc at 0. -/
def resume_conversation (table : Int → Option (VM → VM)) (fuel : Nat)
    (vm : VM) (choice : Option Int) : VM :=
  let vm1 := match choice with
    | some c => { vm with result_register := c }
    | none => vm
  execute table fuel { vm1 with waiting_response := false }

/-- The 32 imported-globals values written by `initialize_memory`
(`npc_whoami` is 0x010C = 268). -/
def gameGlobals : List Int :=
  [0, 30, 0, 0, 30, 30, 3, 0, 0, 0, 0, 0, 32, 32, 268, 0, 30, 30, 0, 0, 8,
   3, 0, 0, 0, 0, 1, 0, 1, 1, 1, 0]

/-- A VM as left by `__init__` (call level 1, all-zero memory) followed by
`initialize_memory` (globals in cells 0–31, `BP = 64`, `SP = 576`), with
the given code, string block and pending console input. -/
def initVM (code : List Int) (block : Option (List String)) (stdin : List String) : VM :=
  { memory := fun a => if 0 ≤ a ∧ a < 32 then gameGlobals.getD a.toNat 0 else 0,
    stack_pointer := 576, base_pointer := 64, result_register := 0, pc := 0,
    call_level := 1, code := code, finished := false, waiting_response := false,
    current_string_block := block, out := [], stdin := stdin }

/-! ### Assembly parsing (`parse_asm`, `_resolve_argument`, `get_opcode`)

A source line, after the textual cleanup the parser performs (blank and
comment lines skipped, inline comments stripped), is either a label
definition (`name:`), a bare opcode, or an opcode with one argument; the
argument text is either a number or a label name (the compiler emits
decimal numbers and identifier labels, which the parser distinguishes by
dictionary lookup). -/
/-- An instruction argument as written: a numeric literal or a label
name. -/
inductive AsmArg where
  | num : Int → AsmArg
  | lbl : String → AsmArg

inductive AsmLine where
  | label : String → AsmLine
  | instr0 : String → AsmLine
  | instr1 : String → AsmArg → AsmLine

/-- `UltimaUnderworldVM.get_opcode`: mnemonic to opcode value, 0 for an
unknown mnemonic (`opcode_map.get(name, 0)`). -/
def get_opcode (name : String) : Int :=
  if name = "NOP" then 0x00
  else if name = "OPADD" then 0x01
  else if name = "OPMUL" then 0x02
  else if name = "OPSUB" then 0x03
  else if name = "OPDIV" then 0x04
  else if name = "OPMOD" then 0x05
  else if name = "OPOR" then 0x06
  else if name = "OPAND" then 0x07
  else if name = "OPNOT" then 0x08
  else if name = "TSTGT" then 0x09
  else if name = "TSTGE" then 0x0A
  else if name = "TSTLT" then 0x0B
  else if name = "TSTLE" then 0x0C
  else if name = "TSTEQ" then 0x0D
  else if name = "TSTNE" then 0x0E
  else if name = "JMP" then 0x0F
  else if name = "BEQ" then 0x10
  else if name = "BNE" then 0x11
  else if name = "BRA" then 0x12
  else if name = "CALL" then 0x13
  else if name = "CALLI" then 0x14
  else if name = "RET" then 0x15
  else if name = "PUSHI" then 0x16
  else if name = "PUSHI_EFF" then 0x17
  else if name = "POP" then 0x18
  else if name = "SWAP" then 0x19
  else if name = "PUSHBP" then 0x1A
  else if name = "POPBP" then 0x1B
  else if name = "SPTOBP" then 0x1C
  else if name = "BPTOSP" then 0x1D
  else if name = "ADDSP" then 0x1E
  else if name = "FETCHM" then 0x1F
  else if name = "STO" then 0x20
  else if name = "OFFSET" then 0x21
  else if name = "START" then 0x22
  else if name = "SAVE_REG" then 0x23
  else if name = "PUSH_REG" then 0x24
  else if name = "STRCMP" then 0x25
  else if name = "EXIT_OP" then 0x26
  else if name = "SAY_OP" then 0x27
  else if name = "RESPOND_OP" then 0x28
  else if name = "OPNEG" then 0x29
  else 0

/-- First pass of `parse_asm`: record each label's word position; an
instruction with an argument advances the position by 2 words, one
without by 1. -/
def firstPass : List AsmLine → Nat → List (String × Nat)
  | [], _ => []
  | .label name :: rest, pc => (name, pc) :: firstPass rest pc
  | .instr0 _ :: rest, pc => firstPass rest (pc + 1)
  | .instr1 _ _ :: rest, pc => firstPass rest (pc + 2)

/-- Dictionary lookup `arg_str in self.labels` / `self.labels[arg_str]`
(label definitions are recorded first-pass in order; a duplicate label
name would be overwritten by the later one, so lookup takes the last
binding, as a Python dict does). -/
def lookupLabel (labels : List (String × Nat)) (name : String) : Option Nat :=
  match labels with
  | [] => none
  | (n, p) :: rest =>
    match lookupLabel rest name with
    | some q => some q
    | none => if n = name then some p else none

/-- `UltimaUnderworldVM._resolve_argument`: a known label resolves to
`target - (current_pc + 2)` for the branch mnemonics `BEQ`/`BNE`/`BRA`
and to the absolute position for `JMP`/`CALL` (for any other mnemonic the
label name falls through to numeric parsing, which fails and yields 0
with a warning); a numeric argument is its value; an unknown label
likewise parses as 0 with a warning. -/
def resolveArgument (labels : List (String × Nat)) (opcode_name : String)
    (current_pc : Nat) : AsmArg → Int
  | .num n => n
  | .lbl s =>
    match lookupLabel labels s with
    | some target_pos =>
      if opcode_name = "BEQ" ∨ opcode_name = "BNE" ∨ opcode_name = "BRA" then
        (target_pos : Int) - ((current_pc : Int) + 2)
      else if opcode_name = "JMP" ∨ opcode_name = "CALL" then (target_pos : Int)
      else 0
    | none => 0

/-- Second pass of `parse_asm`: emit opcode words, resolving arguments
against the label table; label lines emit nothing. -/
def secondPass (labels : List (String × Nat)) : List AsmLine → Nat → List Int
  | [], _ => []
  | .label _ :: rest, pc => secondPass labels rest pc
  | .instr0 name :: rest, pc => get_opcode name :: secondPass labels rest (pc + 1)
  | .instr1 name arg :: rest, pc =>
    get_opcode name :: resolveArgument labels name pc arg ::
      secondPass labels rest (pc + 2)

/-- `parse_asm`'s net effect on the code vector: both passes. -/
def assemble (lines : List AsmLine) : List Int :=
  secondPass (firstPass lines 0) lines 0

/-! ## UWScript code generator (`UWScript/uwscript_compiler.py`)

Embedding of `CodeGenerator` for the statement and expression forms the
function-parameter and string-substitution scenarios exercise: number and
string literals, identifiers, binary operations, user-defined function
calls, `let` declarations of scalars, `say`, `return`, and function
definitions.  The builtin-call path (temp-variable argument passing), the
array forms, control flow and the remaining statements are outside this
fragment; no program considered here reaches them. -/

inductive UExpr where
  | num : Int → UExpr
  | str : String → UExpr
  | ident : String → UExpr
  | bin : String → UExpr → UExpr → UExpr
  | call : String → List UExpr → UExpr

inductive UStmt where
  | varDecl : String → UExpr → UStmt
  | say : UExpr → UStmt
  | ret : Option UExpr → UStmt
  | funcDef : String → List String → List UStmt → UStmt

/-- Python dict lookup over an insertion-ordered association list where a
later binding for the same key overwrites an earlier one. -/
def dictLookup {α : Type} : List (String × α) → String → Option α
  | [], _ => none
  | (k, v) :: rest, name =>
    match dictLookup rest name with
    | some w => some w
    | none => if k = name then some v else none

/-- Python `list.index`: position of the first occurrence. -/
def listIndex : List String → String → Option Nat
  | [], _ => none
  | x :: rest, s => if x = s then some 0 else (listIndex rest s).map (· + 1)

/-- `FunctionScope`: parameter `i` (0-based, left to right in the
declaration) is bound to offset `-(i + 2)`; locals are allocated from 0
upward. -/
structure FScope where
  locals : List (String × Int)
  next_local : Int

/-- `FunctionScope.__init__`. -/
def mkFScope (params : List String) : FScope :=
  { locals := params.enum.map (fun p => (p.2, -((p.1 : Int) + 2))), next_local := 0 }

/-- The `CodeGenerator` state our fragment reads and writes.  The label
dictionary and `vm_position` are bookkeeping the runner never consumes
(it re-derives label positions from the emitted text), and the
temp-variable manager belongs to the unmodelled builtin path; they are
omitted. -/
structure Gen where
  string_literals : List String
  global_variables : List (String × Int)
  next_global_var : Int
  functions : List (String × List String)
  function_scopes : List (String × FScope)
  variable_types : List (String × String)
  current_function : Option String
  target_is_func : Bool
  main_code : List AsmLine
  func_code : List AsmLine

def emptyGen : Gen :=
  { string_literals := [], global_variables := [], next_global_var := 0,
    functions := [], function_scopes := [], variable_types := [],
    current_function := none, target_is_func := false,
    main_code := [], func_code := [] }

/-- `CodeGenerator._emit` / `_emit_label`: append to the current target
(the function-body buffer while a `FunctionDefinition` is being
generated, the main-program buffer otherwise). -/
def emit (g : Gen) (line : AsmLine) : Gen :=
  if g.target_is_func then { g with func_code := g.func_code ++ [line] }
  else { g with main_code := g.main_code ++ [line] }

def emitAll (g : Gen) (lines : List AsmLine) : Gen :=
  lines.foldl emit g

/-- `CodeGenerator._first_pass` on an expression: collect string literals
in first-appearance order without duplicates, descending into operands and
call arguments.  (The source visits some nodes twice — once in its
type-dispatch chain and once through the generic `children` walk — which
is invisible because registration is idempotent.) -/
def fpExpr : Nat → Gen → UExpr → Gen
  | 0, g, _ => g
  | fuel + 1, g, e =>
    match e with
    | .num _ => g
    | .str s =>
      if s ∈ g.string_literals then g
      else { g with string_literals := g.string_literals ++ [s] }
    | .ident _ => g
    | .bin _ l r => fpExpr fuel (fpExpr fuel g l) r
    | .call _ args => args.foldl (fpExpr fuel) g

/-- `CodeGenerator._first_pass` on a statement: additionally register each
function definition's parameter list and its `FunctionScope`. -/
def fpStmt : Nat → Gen → UStmt → Gen
  | 0, g, _ => g
  | fuel + 1, g, st =>
    match st with
    | .varDecl _ e => fpExpr fuel g e
    | .say e => fpExpr fuel g e
    | .ret none => g
    | .ret (some e) => fpExpr fuel g e
    | .funcDef name params body =>
      let g1 := { g with functions := g.functions ++ [(name, params)],
                         function_scopes := g.function_scopes ++ [(name, mkFScope params)] }
      body.foldl (fpStmt fuel) g1

/-- `_first_pass` on the program node: reset the global-variable table,
then walk the children. -/
def fpProgram (fuel : Nat) (g : Gen) (stmts : List UStmt) : Gen :=
  stmts.foldl (fpStmt fuel) { g with global_variables := [], next_global_var := 0 }

/-- `CodeGenerator._get_variable_offset`: the current function's scope
first, then the global scope. -/
def getVarOffset (g : Gen) (name : String) : Option Int :=
  match g.current_function with
  | some f =>
    match dictLookup g.function_scopes f with
    | some scope =>
      match dictLookup scope.locals name with
      | some off => some off
      | none => dictLookup g.global_variables name
    | none => dictLookup g.global_variables name
  | none => dictLookup g.global_variables name

/-- `CodeGenerator._allocate_variable` (and `FunctionScope.
allocate_local_var`): an existing binding is returned unchanged; a new one
takes the next free offset of the active scope and advances it by the
requested size. -/
def allocateVariable (g : Gen) (name : String) (size : Int) : Int × Gen :=
  match g.current_function with
  | some f =>
    match dictLookup g.function_scopes f with
    | some scope =>
      match dictLookup scope.locals name with
      | some off => (off, g)
      | none =>
        let off := scope.next_local
        let scope2 : FScope := { locals := scope.locals ++ [(name, off)],
                                 next_local := scope.next_local + size }
        (off, { g with function_scopes := g.function_scopes ++ [(f, scope2)] })
    | none => (0, g)
  | none =>
    match dictLookup g.global_variables name with
    | some off => (off, g)
    | none =>
      let off := g.next_global_var
      (off, { g with global_variables := g.global_variables ++ [(name, off)],
                     next_global_var := g.next_global_var + size })

/-- The operator table of the generic `BinaryOperation` fallback; an
operator outside the table emits nothing. -/
def emitBinOp (g : Gen) (opv : String) : Gen :=
  if opv = "+" then emit g (.instr0 "OPADD")
  else if opv = "-" then emit g (.instr0 "OPSUB")
  else if opv = "*" then emit g (.instr0 "OPMUL")
  else if opv = "/" then emit g (.instr0 "OPDIV")
  else if opv = "%" then emit g (.instr0 "OPMOD")
  else if opv = "==" then emit g (.instr0 "TSTEQ")
  else if opv = "!=" then emit g (.instr0 "TSTNE")
  else if opv = "<" then emit g (.instr0 "TSTLT")
  else if opv = ">" then emit g (.instr0 "TSTGT")
  else if opv = "<=" then emit g (.instr0 "TSTLE")
  else if opv = ">=" then emit g (.instr0 "TSTGE")
  else if opv = "and" then emit g (.instr0 "OPAND")
  else if opv = "or" then emit g (.instr0 "OPOR")
  else g

/-- Is the expression itself a `+` binary operation (the nested-
concatenation test)? -/
def isConcat : UExpr → Bool
  | .bin op _ _ => op = "+"
  | _ => false

mutual

/-- `CodeGenerator._generate_code` on an expression.  Exceptions the
source raises (`NameError` for an undefined identifier or function,
`ValueError` from `list.index`) become `Except.error`. -/
def genExpr : Nat → Gen → UExpr → Except String Gen
  | 0, _, _ => .error "fuel exhausted"
  | fuel + 1, g, e =>
    match e with
    | .num n => .ok (emit g (.instr1 "PUSHI" (.num n)))
    | .str s =>
      match listIndex g.string_literals s with
      | some idx => .ok (emit g (.instr1 "PUSHI" (.num idx)))
      | none => .error "ValueError: string literal not collected"
    | .ident name =>
      match getVarOffset g name with
      | none => .error "NameError: undefined variable"
      | some off =>
        if dictLookup g.variable_types name = some "array" then
          .ok (emitAll g [.instr0 "PUSHBP", .instr1 "PUSHI" (.num off), .instr0 "OPADD"])
        else
          .ok (emitAll g [.instr1 "PUSHI_EFF" (.num off), .instr0 "FETCHM"])
    | .bin opv l r =>
      if opv = "+" ∧ (isConcat l ∨ isConcat r) then
        -- multiple concatenations: warn and fall back to numeric addition
        match genExpr fuel g l with
        | .error msg => .error msg
        | .ok g1 =>
          match genExpr fuel g1 r with
          | .error msg => .error msg
          | .ok g2 => .ok (emit g2 (.instr0 "OPADD"))
      else
        match opv, l, r with
        | "+", .str s, .ident v =>
          (match getVarOffset g v with
           | some var_offset =>
             let var_type := (dictLookup g.variable_types v).getD "integer"
             let subst_type := if var_type = "string" then "SS" else "SI"
             let substituted := s ++ "@" ++ subst_type ++ toString var_offset
             (match listIndex g.string_literals s with
              | some idx =>
                .ok (emit { g with string_literals := g.string_literals.set idx substituted }
                  (.instr1 "PUSHI" (.num idx)))
              | none =>
                .ok (emit { g with string_literals := g.string_literals ++ [substituted] }
                  (.instr1 "PUSHI" (.num g.string_literals.length))))
           | none => genBinFallback fuel g opv l r)
        | "+", .ident v, .str s =>
          (match getVarOffset g v with
           | some var_offset =>
             let var_type := (dictLookup g.variable_types v).getD "integer"
             let subst_type := if var_type = "string" then "SS" else "SI"
             let substituted := "@" ++ subst_type ++ toString var_offset ++ s
             (match listIndex g.string_literals s with
              | some idx =>
                .ok (emit { g with string_literals := g.string_literals.set idx substituted }
                  (.instr1 "PUSHI" (.num idx)))
              | none =>
                .ok (emit { g with string_literals := g.string_literals ++ [substituted] }
                  (.instr1 "PUSHI" (.num g.string_literals.length))))
           | none => genBinFallback fuel g opv l r)
        | _, _, _ => genBinFallback fuel g opv l r
    | .call name args =>
      match dictLookup g.functions name with
      | none => .error "NameError: undefined function"
      | some params =>
        match genExprList fuel g args with
        | .error msg => .error msg
        | .ok g1 =>
          let g2 := emit g1 (.instr1 "CALL" (.lbl name))
          .ok (emitAll g2 (params.map (fun _ => AsmLine.instr0 "POP")))

/-- The generic two-operand fallback of `BinaryOperation`. -/
def genBinFallback (fuel : Nat) (g : Gen) (opv : String) (l r : UExpr) :
    Except String Gen :=
  match fuel with
  | 0 => .error "fuel exhausted"
  | fuel + 1 =>
    match genExpr fuel g l with
    | .error msg => .error msg
    | .ok g1 =>
      match genExpr fuel g1 r with
      | .error msg => .error msg
      | .ok g2 => .ok (emitBinOp g2 opv)

/-- Left-to-right generation of call arguments. -/
def genExprList : Nat → Gen → List UExpr → Except String Gen
  | 0, _, _ => .error "fuel exhausted"
  | _ + 1, g, [] => .ok g
  | fuel + 1, g, e :: rest =>
    match genExpr fuel g e with
    | .error msg => .error msg
    | .ok g1 => genExprList fuel g1 rest

end

def isRetStmt : UStmt → Bool
  | .ret _ => true
  | _ => false

mutual

/-- `_generate_code` on a statement.  A `FunctionDefinition` met here does
nothing: the dispatch chain has no case for it outside the `Program`
walk. -/
def genStmt : Nat → Gen → UStmt → Except String Gen
  | 0, _, _ => .error "fuel exhausted"
  | fuel + 1, g, st =>
    match st with
    | .varDecl name e =>
      match genExpr fuel g e with
      | .error msg => .error msg
      | .ok g1 =>
        let vtype := match e with
          | .str _ => "string"
          | _ => "integer"
        let g2 := { g1 with variable_types := g1.variable_types ++ [(name, vtype)] }
        let p := allocateVariable g2 name 1
        .ok (emitAll p.2 [.instr1 "PUSHI_EFF" (.num p.1), .instr0 "SWAP", .instr0 "STO"])
    | .say e =>
      match genExpr fuel g e with
      | .error msg => .error msg
      | .ok g1 => .ok (emit g1 (.instr0 "SAY_OP"))
    | .ret none =>
      .ok (emitAll g [.instr1 "PUSHI" (.num 0), .instr0 "BPTOSP", .instr0 "POPBP",
        .instr0 "RET"])
    | .ret (some e) =>
      match genExpr fuel g e with
      | .error msg => .error msg
      | .ok g1 => .ok (emitAll g1 [.instr0 "BPTOSP", .instr0 "POPBP", .instr0 "RET"])
    | .funcDef _ _ _ => .ok g

def genStmtList : Nat → Gen → List UStmt → Except String Gen
  | 0, _, _ => .error "fuel exhausted"
  | _ + 1, g, [] => .ok g
  | fuel + 1, g, st :: rest =>
    match genStmt fuel g st with
    | .error msg => .error msg
    | .ok g1 => genStmtList fuel g1 rest

end

/-- `_generate_function_code`: label, a frame prologue only when the
function has parameters, the body, and an implicit `RET` (with epilogue
when there are parameters) unless the last body statement is already a
return. -/
def genFunctionCode (fuel : Nat) (g : Gen) (name : String) (params : List String)
    (body : List UStmt) : Except String Gen :=
  let g1 := emit g (.label name)
  let g2 :=
    if params.isEmpty then g1
    else emitAll g1 [.instr0 "PUSHBP", .instr0 "SPTOBP", .instr1 "PUSHI" (.num 10),
      .instr0 "ADDSP"]
  match genStmtList fuel g2 body with
  | .error msg => .error msg
  | .ok g3 =>
    match body.getLast? with
    | some last =>
      if isRetStmt last then .ok g3
      else
        let g4 := if params.isEmpty then g3 else emitAll g3 [.instr0 "BPTOSP", .instr0 "POPBP"]
        .ok (emit g4 (.instr0 "RET"))
    | none =>
      let g4 := if params.isEmpty then g3 else emitAll g3 [.instr0 "BPTOSP", .instr0 "POPBP"]
      .ok (emit g4 (.instr0 "RET"))

/-- The `Program` child walk of `_generate_code`: function definitions are
generated into the function buffer with the target and current function
saved and restored around them; everything else goes through `genStmt`. -/
def genProgramAux : Nat → Gen → List UStmt → Except String Gen
  | _, g, [] => .ok g
  | 0, _, _ :: _ => .error "fuel exhausted"
  | fuel + 1, g, st :: rest =>
    match st with
    | .funcDef name params body =>
      let old_target := g.target_is_func
      let old_function := g.current_function
      let g1 := { g with target_is_func := true, current_function := some name }
      match genFunctionCode fuel g1 name params body with
      | .error msg => .error msg
      | .ok g2 =>
        genProgramAux fuel
          { g2 with target_is_func := old_target, current_function := old_function } rest
    | _ =>
      match genStmt fuel g st with
      | .error msg => .error msg
      | .ok g1 => genProgramAux fuel g1 rest

/-- `CodeGenerator.generate`: first pass, then `START`, the program
children, `EXIT_OP`, and finally the concatenation of the main-program
and function buffers. -/
def generate (fuel : Nat) (prog : List UStmt) : Except String Gen :=
  let g0 := fpProgram fuel emptyGen prog
  match genProgramAux fuel (emit g0 (.instr0 "START")) prog with
  | .error msg => .error msg
  | .ok g1 => .ok (emit g1 (.instr0 "EXIT_OP"))

/-- Compile a program to the assembly line list the runner parses. -/
def compileUWScript (fuel : Nat) (prog : List UStmt) : Except String (List AsmLine) :=
  match generate fuel prog with
  | .error msg => .error msg
  | .ok g => .ok (g.main_code ++ g.func_code)

/-! ## Concrete scenarios

Fixed programs, handler tables and machine states used by the claim
theorems below. -/

/-- A handler table with no registered imports; `op_calli` consults the
table only at the executed id, so any table agreeing with the source's
table at that id gives the same step. -/
def emptyTable : Int → Option (VM → VM) := fun _ => none

/-- A handler table that is faithful to the source's registration at
id 3 (`babl_ask`). -/
def askTable : Int → Option (VM → VM) :=
  fun id => if id = 3 then some func_babl_ask else none

/-- A taken `BEQ` whose label sits two instructions past the branch. -/
def asmBranch : List AsmLine :=
  [.instr1 "PUSHI" (.num 0), .instr1 "BEQ" (.lbl "target"),
   .instr0 "NOP", .instr0 "NOP", .label "target", .instr0 "EXIT_OP"]

/-- `function f(x,y) return x*2+y endfunction` followed by
`let r = f(3,4)`. -/
def uwProg2 : List UStmt :=
  [.funcDef "f" ["x", "y"]
     [.ret (some (.bin "+" (.bin "*" (.ident "x") (.num 2)) (.ident "y")))],
   .varDecl "r" (.call "f" [.num 3, .num 4])]

def uwCode2 : List Int := assemble ((compileUWScript 100 uwProg2).toOption.getD [])

def uwFin2 : VM := execute emptyTable 30 (initVM uwCode2 none [])

/-- `let hp = 75` followed by `say "HP: " + hp`. -/
def uwProg8 : List UStmt :=
  [.varDecl "hp" (.num 75), .say (.bin "+" (.str "HP: ") (.ident "hp"))]

def uwLits8 : List String := ((generate 100 uwProg8).toOption.getD emptyGen).string_literals

def uwCode8 : List Int := assemble ((compileUWScript 100 uwProg8).toOption.getD [])

def uwFin8 : VM := execute emptyTable 30 (initVM uwCode8 (some uwLits8) [])

/-- A stack holding 40000 twice, about to execute `OPADD`. -/
def arithVM : VM := vmPush (vmPush (initVM [1] none []) 40000) 40000

/-- `CALLI 99` (id 99 is unregistered) followed by `EXIT_OP`. -/
def calliVM : VM := initVM [20, 99, 38] none []

/-- Call level 0 with a return address 7 on the stack, about to execute
`RET`. -/
def retVM : VM := { vmPush (initVM [21] none []) 7 with call_level := 0 }

/-- `CALLI 3` (`babl_ask`) followed by `EXIT_OP`, with one console line
pending. -/
def askVM : VM := initVM [20, 3, 38] none ["hello"]

/-- Reading back a cell just written, for addresses inside the memory
list. -/
theorem get_mem_set_same (m : Mem) (addr v : Int) (h0 : 0 ≤ addr)
    (h1 : addr < 65536) : get_mem (set_mem m addr v) addr = v := by
  simp only [get_mem, set_mem, pyListIdx]
  split_ifs <;> first | rfl | omega

/-- Writes at one in-range address leave reads at a different in-range
address unchanged. -/
theorem get_mem_set_ne (m : Mem) (addr addr2 v : Int) (h0 : 0 ≤ addr)
    (h1 : addr < 65536) (h2 : 0 ≤ addr2) (h3 : addr2 < 65536)
    (hne : addr ≠ addr2) : get_mem (set_mem m addr v) addr2 = get_mem m addr2 := by
  simp only [get_mem, set_mem, pyListIdx]
  split_ifs <;> first | rfl | omega

theorem getD_set_self (l : List String) (idx : Nat) (v : String)
    (h : idx < l.length) : (l.set idx v).getD idx "" = v := by
  induction l generalizing idx with
  | nil => simp at h
  | cons x rest ih =>
    cases idx with
    | zero => rfl
    | succ n => exact ih n (by simp at h; omega)

theorem getD_append_length (l : List String) (v : String) :
    (l ++ [v]).getD l.length "" = v := by
  induction l with
  | nil => rfl
  | cons x rest ih => exact ih

/-- `list.index` returns an in-range position when it succeeds. -/
theorem listIndex_lt_length (l : List String) (s : String) (idx : Nat)
    (h : listIndex l s = some idx) : idx < l.length := by
  induction l generalizing idx with
  | nil => simp [listIndex] at h
  | cons x rest ih =>
    rw [listIndex] at h
    by_cases hx : x = s
    · rw [if_pos hx] at h
      obtain rfl : 0 = idx := Option.some.inj h
      simp
    · rw [if_neg hx] at h
      rcases hj : listIndex rest s with _ | j
      · rw [hj] at h; simp at h
      · rw [hj] at h
        obtain rfl : j + 1 = idx := Option.some.inj h
        have := ih j hj
        simp only [List.length_cons]
        omega

/-- `_emit` never touches the collected string literals, whichever
buffer is the current target. -/
theorem emit_string_literals (g : Gen) (line : AsmLine) :
    (emit g line).string_literals = g.string_literals := by
  unfold emit; split <;> rfl

/-! ## Claims about the VM and the compiler -/

/-- C1.  The runner's two halves disagree about branch offsets: the
parser resolves a label operand of `BEQ`/`BNE`/`BRA` to
`target - (pc + 2)` (relative to the instruction after the branch), but
the taken-branch handlers set `pc := pc + offset` from the branch's own
pc, so a taken branch lands two words short of the label.  Here `target`
is recorded at word 6 and the `BEQ` at pc 2 resolves to offset 2, yet
taking the branch sets the pc to 4, not 6: the claim fails on this
program. -/
theorem uw_c1_taken_branch_misses_label :
    lookupLabel (firstPass asmBranch 0) "target" = some 6 ∧
    resolveArgument (firstPass asmBranch 0) "BEQ" 2 (.lbl "target") = 2 ∧
    assemble asmBranch = [22, 0, 16, 2, 0, 0, 38] ∧
    (execLoop emptyTable 2 (initVM (assemble asmBranch) none [])).pc = 4 ∧
    (execLoop emptyTable 2 (initVM (assemble asmBranch) none [])).pc ≠ 6 := by
  refine ⟨rfl, rfl, rfl, rfl, ?_⟩
  decide

/-- C3 counterexample.  `OPADD` pushes the exact sum: 40000 + 40000
leaves 80000 in the stack cell — outside [0, 65535] and different from
the claimed (40000 + 40000) mod 2^16 = 14464.  No handler reduces
modulo 2^16. -/
theorem uw_c3_counterexample :
    get_mem (op_add arithVM).memory ((op_add arithVM).stack_pointer - 1) = 80000 ∧
    ¬ (80000 : Int) ≤ 65535 ∧
    (40000 + 40000) % 65536 = (14464 : Int) ∧
    get_mem (op_add arithVM).memory ((op_add arithVM).stack_pointer - 1) ≠
      (40000 + 40000) % 65536 := by
  decide

/-- C6 counterexample.  `CALLI 99` with id 99 outside the registration
table does not fail: the step only prints a warning, pushes the result
register, and advances the pc to the next instruction, and the run then
finishes normally at `EXIT_OP`. -/
theorem uw_c6_counterexample :
    (99 : Int) ∉ importedIds ∧
    (execStep emptyTable calliVM).finished = false ∧
    (execStep emptyTable calliVM).pc = 2 ∧
    (execStep emptyTable calliVM).stack_pointer = 577 ∧
    (execLoop emptyTable 2 calliVM).finished = true := by
  decide

/-- C7 counterexample.  Executing `RET` at call level 0 terminates
without popping: the stack pointer stays at 577 (the pushed return
address 7 is never consumed) and the pc stays at 0 instead of being set
to the popped value, contradicting the claim that every `RET` pops the
return address and sets the pc to it. -/
theorem uw_c7_counterexample :
    retVM.stack_pointer = 577 ∧ retVM.call_level = 0 ∧
    (op_ret retVM).finished = true ∧
    (op_ret retVM).call_level = -1 ∧
    (op_ret retVM).stack_pointer = 577 ∧
    (op_ret retVM).pc = 0 ∧
    (op_ret retVM).pc ≠ 7 := by
  decide

/-- C9 counterexample.  The input-gathering handlers are synchronous:
one `execStep` over `CALLI 3` (`babl_ask`) blocks on the console inside
the handler and returns with `waiting_response` already reset to
`false` (never observable as a waiting state) and the dummy reply 100 in
the result register; and `RESPOND_OP` (0x28) has no handler at all — the
step logs an unknown opcode and moves on without suspending. -/
theorem uw_c9_counterexample :
    (execStep askTable askVM).waiting_response = false ∧
    (execStep askTable askVM).result_register = 100 ∧
    (execStep askTable askVM).finished = false ∧
    (execStep askTable askVM).pc = 2 ∧
    (execStep emptyTable (initVM [40] none [])).waiting_response = false ∧
    (execStep emptyTable (initVM [40] none [])).pc = 1 := by
  decide

/-- C2.  Compiling `function f(x,y) return x*2+y endfunction;
let r = f(3,4)` and running the result does not behave as claimed.  The
generated callee reads its first parameter `x` through `PUSHI_EFF -2`
(address BP-3 after the negative-offset adjustment), which holds the
*second* argument: the cell the `FETCHM` at step 10 leaves on top of the
stack is 4, not 3.  The return statement emits `BPTOSP` before `RET`,
discarding the computed value, and the caller's `POP`s remove the
arguments, so the `SWAP`/`STO` of the declaration operates on stale
cells: `r`'s cell (address 64) ends at 0, not 10, and the final stack
pointer is 575 — below its initial 576 and unequal to the base
pointer 64.  The claim fails on its own example program. -/
theorem uw_c2_function_parameters_broken :
    uwCode2 = [34, 22, 3, 22, 4, 19, 14, 24, 24, 23, 0, 25, 32, 38,
               26, 28, 22, 10, 30, 23, -2, 31, 22, 2, 2, 23, -3, 31, 1, 29, 27, 21] ∧
    get_mem (execLoop emptyTable 10 (initVM uwCode2 none [])).memory
      ((execLoop emptyTable 10 (initVM uwCode2 none [])).stack_pointer - 1) = 4 ∧
    uwFin2.finished = true ∧
    get_mem uwFin2.memory 64 = 0 ∧
    get_mem uwFin2.memory 64 ≠ 10 ∧
    uwFin2.stack_pointer = 575 ∧
    uwFin2.base_pointer = 64 ∧
    uwFin2.stack_pointer ≠ uwFin2.base_pointer := by
  refine ⟨rfl, rfl, rfl, rfl, ?_, rfl, rfl, ?_⟩ <;> decide

/-- C3 (amended).  The arithmetic handlers push the *exact* integer
results — `OPADD` pushes `a + b`, `OPMUL` pushes `a * b`, `OPSUB` pushes
`a - b`, and `OPNEG` pushes `-a` — with no reduction modulo 2^16, so a
cell can end up holding any integer (see the counterexample for a value
outside [0, 65535]).  The pc advances by one word and the pair of
operands is replaced by the single result. -/
theorem uw_c3_arith_exact (vm : VM) (a b : Int)
    (h0 : 0 ≤ vm.stack_pointer) (h1 : vm.stack_pointer + 2 < 65536) :
    get_mem (op_add (vmPush (vmPush vm a) b)).memory
      ((op_add (vmPush (vmPush vm a) b)).stack_pointer - 1) = a + b ∧
    (op_add (vmPush (vmPush vm a) b)).stack_pointer = vm.stack_pointer + 1 ∧
    (op_add (vmPush (vmPush vm a) b)).pc = vm.pc + 1 ∧
    get_mem (op_mul (vmPush (vmPush vm a) b)).memory
      ((op_mul (vmPush (vmPush vm a) b)).stack_pointer - 1) = a * b ∧
    get_mem (op_sub (vmPush (vmPush vm a) b)).memory
      ((op_sub (vmPush (vmPush vm a) b)).stack_pointer - 1) = a - b ∧
    get_mem (op_opneg (vmPush vm a)).memory
      ((op_opneg (vmPush vm a)).stack_pointer - 1) = -a := by
  have hB : get_mem (set_mem (set_mem vm.memory vm.stack_pointer a)
      (vm.stack_pointer + 1) b) (vm.stack_pointer + 1) = b :=
    get_mem_set_same _ (vm.stack_pointer + 1) b (by omega) (by omega)
  have hA : get_mem (set_mem (set_mem vm.memory vm.stack_pointer a)
      (vm.stack_pointer + 1) b) vm.stack_pointer = a := by
    rw [get_mem_set_ne (set_mem vm.memory vm.stack_pointer a) (vm.stack_pointer + 1)
      vm.stack_pointer b (by omega) (by omega) (by omega) (by omega) (by omega)]
    exact get_mem_set_same _ vm.stack_pointer a (by omega) (by omega)
  have hC : get_mem (set_mem vm.memory vm.stack_pointer a) vm.stack_pointer = a :=
    get_mem_set_same _ vm.stack_pointer a (by omega) (by omega)
  refine ⟨?_, ?_, ?_, ?_, ?_, ?_⟩
  · simp only [op_add, vmPush, vmPop, Int.add_sub_cancel]
    rw [hA, hB]
    exact get_mem_set_same _ vm.stack_pointer (a + b) (by omega) (by omega)
  · simp only [op_add, vmPush, vmPop, Int.add_sub_cancel]
  · simp only [op_add, vmPush, vmPop]
  · simp only [op_mul, vmPush, vmPop, Int.add_sub_cancel]
    rw [hA, hB]
    exact get_mem_set_same _ vm.stack_pointer (a * b) (by omega) (by omega)
  · simp only [op_sub, vmPush, vmPop, Int.add_sub_cancel]
    rw [hA, hB]
    exact get_mem_set_same _ vm.stack_pointer (a - b) (by omega) (by omega)
  · simp only [op_opneg, vmPush, vmPop, Int.add_sub_cancel]
    rw [hC]
    exact get_mem_set_same _ vm.stack_pointer (-a) (by omega) (by omega)

/-- Instance of the amended C3 statement at the 40000 + 40000 state. -/
theorem uw_c3_arith_exact_witness :
    get_mem (op_add arithVM).memory ((op_add arithVM).stack_pointer - 1) =
      40000 + 40000 ∧
    (op_add arithVM).stack_pointer = (initVM [1] none []).stack_pointer + 1 ∧
    (op_add arithVM).pc = (initVM [1] none []).pc + 1 ∧
    get_mem (op_mul arithVM).memory ((op_mul arithVM).stack_pointer - 1) =
      40000 * 40000 ∧
    get_mem (op_sub arithVM).memory ((op_sub arithVM).stack_pointer - 1) =
      40000 - 40000 ∧
    get_mem (op_opneg (vmPush (initVM [1] none []) 40000)).memory
      ((op_opneg (vmPush (initVM [1] none []) 40000)).stack_pointer - 1) = -40000 :=
  uw_c3_arith_exact (initVM [1] none []) 40000 40000 (by decide) (by decide)

/-- C6 (amended).  `CALLI` with an id the handler table does not contain
does not raise an error of any kind: the handler lookup misses, only a
warning is printed, and the instruction still pushes the result register
and advances the pc by two words, leaving every other component of the
state untouched — execution silently continues. -/
theorem uw_c6_calli_unknown_continues (table : Int → Option (VM → VM)) (vm : VM)
    (h : table (codeAt vm (vm.pc + 1)) = none) :
    op_calli table vm =
      { vm with memory := set_mem vm.memory vm.stack_pointer vm.result_register,
                stack_pointer := vm.stack_pointer + 1,
                pc := vm.pc + 2 } := by
  simp only [op_calli, vmPush, h]

/-- Instance of the amended C6 statement at the `CALLI 99` state. -/
theorem uw_c6_calli_unknown_continues_witness :
    op_calli emptyTable calliVM =
      { calliVM with
          memory := set_mem calliVM.memory calliVM.stack_pointer calliVM.result_register,
          stack_pointer := calliVM.stack_pointer + 1,
          pc := calliVM.pc + 2 } :=
  uw_c6_calli_unknown_continues emptyTable calliVM rfl

/-- C7 (amended).  `RET` decrements the call level *first*.  When the
decremented level is still non-negative it pops the return address and
jumps to it (the memory keeps the cell, the stack pointer returns to its
pre-push position).  When the level drops below 0 the conversation is
finished immediately and the pop never happens: the stack pointer and pc
are left untouched (see the counterexample). -/
theorem uw_c7_ret_semantics (vm : VM) (addr : Int)
    (h0 : 0 ≤ vm.stack_pointer) (h1 : vm.stack_pointer < 65536) :
    (1 ≤ vm.call_level →
      op_ret (vmPush vm addr) =
        { vm with memory := set_mem vm.memory vm.stack_pointer addr,
                  pc := addr, call_level := vm.call_level - 1 }) ∧
    (vm.call_level ≤ 0 →
      op_ret vm = { vm with call_level := vm.call_level - 1, finished := true }) := by
  constructor
  · intro hcl
    simp only [op_ret, vmPush, vmPop, finish_conversation, Int.add_sub_cancel]
    rw [if_neg (show ¬ vm.call_level - 1 < 0 by omega)]
    rw [get_mem_set_same _ vm.stack_pointer addr (by omega) (by omega)]
  · intro hcl
    simp only [op_ret, finish_conversation]
    rw [if_pos (show vm.call_level - 1 < 0 by omega)]

/-- Instance of the amended C7 statement at a fresh machine (call
level 1) returning to address 7. -/
theorem uw_c7_ret_semantics_witness :
    (1 ≤ (initVM [21] none []).call_level →
      op_ret (vmPush (initVM [21] none []) 7) =
        { initVM [21] none [] with
            memory := set_mem (initVM [21] none []).memory
              (initVM [21] none []).stack_pointer 7,
            pc := 7, call_level := (initVM [21] none []).call_level - 1 }) ∧
    ((initVM [21] none []).call_level ≤ 0 →
      op_ret (initVM [21] none []) =
        { initVM [21] none [] with
            call_level := (initVM [21] none []).call_level - 1,
            finished := true }) :=
  uw_c7_ret_semantics (initVM [21] none []) 7 (by decide) (by decide)

/-- C9 (amended).  The input-gathering handlers are synchronous: each of
`babl_menu`, `babl_fmenu` and `babl_ask` blocks on the console *inside
the handler call* and clears `waiting_response` before returning, so the
step never leaves the machine in a waiting state and no host `resume` is
required (`babl_ask` always reports the dummy string id 100).
`resume_conversation` does store a host-supplied choice in the result
register and clear the waiting flag, but it then re-enters `execute`,
which *resets the pc to 0* rather than continuing after the suspension
point (shown here with zero loop fuel).  `RESPOND_OP` has no handler at
all (see the counterexample). -/
theorem uw_c9_input_is_synchronous (vm : VM) (h : vm.stdin ≠ []) :
    (func_babl_menu vm).waiting_response = false ∧
    (func_babl_fmenu vm).waiting_response = false ∧
    (func_babl_ask vm).waiting_response = false ∧
    (func_babl_ask vm).result_register = 100 ∧
    (∀ (table : Int → Option (VM → VM)) (c : Int),
      resume_conversation table 0 vm (some c) =
        { vm with result_register := c, waiting_response := false, pc := 0 }) := by
  rcases hst : vm.stdin with _ | ⟨l, rest⟩
  · exact absurd hst h
  refine ⟨?_, ?_, ?_, ?_, fun table c => ?_⟩
  · simp [func_babl_menu, vmPop, readLine, hst]
  · simp [func_babl_fmenu, vmPop, readLine, hst]
  · simp [func_babl_ask, readLine, hst]
  · simp [func_babl_ask, readLine, hst]
  · simp [resume_conversation, execute, execLoop, hst]

/-- Instance of the amended C9 statement at the `babl_ask` scenario
state (one pending console line). -/
theorem uw_c9_input_is_synchronous_witness :
    (func_babl_menu askVM).waiting_response = false ∧
    (func_babl_fmenu askVM).waiting_response = false ∧
    (func_babl_ask askVM).waiting_response = false ∧
    (func_babl_ask askVM).result_register = 100 ∧
    (∀ (table : Int → Option (VM → VM)) (c : Int),
      resume_conversation table 0 askVM (some c) =
        { askVM with result_register := c, waiting_response := false, pc := 0 }) :=
  uw_c9_input_is_synchronous askVM (by decide)

/-- The generator state the C8 witness instantiates: one collected
string literal `HP: ` and one global integer variable `hp` at
offset 0. -/
def genW : Gen :=
  { emptyGen with string_literals := ["HP: "],
                  global_variables := [("hp", 0)], next_global_var := 1 }

/-- C8.  A `+` whose operands are exactly one string literal and one
defined variable identifier — in either order, and in the main program
as well as inside a function body — is compiled to a *single* `PUSHI` of
the composite string's id appended to the current target buffer, with
the other buffer untouched (so no runtime concatenation is emitted).
The literal stored at that id embeds the directive `@SS<offset>` when
the variable is string-typed and `@SI<offset>` otherwise: appended to
the text when the literal is the left operand, prepended when it is the
right operand.  Concretely, `let hp = 75; say "HP: " + hp` compiles
with the stored literal `HP: @SI0` and running it emits the transcript
line `HP: 75`. -/
theorem uw_c8_plus_literal_substitution (g : Gen) (fuel : Nat) (s v : String)
    (off : Int) (hoff : getVarOffset g v = some off) :
    (∃ (idx : Nat) (g2 : Gen),
      genExpr (fuel + 1) g (.bin "+" (.str s) (.ident v)) = .ok g2 ∧
      (if g.target_is_func = true
       then g2.main_code = g.main_code ∧
            g2.func_code = g.func_code ++ [.instr1 "PUSHI" (.num idx)]
       else g2.main_code = g.main_code ++ [.instr1 "PUSHI" (.num idx)] ∧
            g2.func_code = g.func_code) ∧
      idx < g2.string_literals.length ∧
      g2.string_literals.getD idx "" =
        s ++ "@" ++ (if (dictLookup g.variable_types v).getD "integer" = "string"
                     then "SS" else "SI") ++ toString off) ∧
    (∃ (idx : Nat) (g2 : Gen),
      genExpr (fuel + 1) g (.bin "+" (.ident v) (.str s)) = .ok g2 ∧
      (if g.target_is_func = true
       then g2.main_code = g.main_code ∧
            g2.func_code = g.func_code ++ [.instr1 "PUSHI" (.num idx)]
       else g2.main_code = g.main_code ++ [.instr1 "PUSHI" (.num idx)] ∧
            g2.func_code = g.func_code) ∧
      idx < g2.string_literals.length ∧
      g2.string_literals.getD idx "" =
        "@" ++ (if (dictLookup g.variable_types v).getD "integer" = "string"
                then "SS" else "SI") ++ toString off ++ s) ∧
    (generate 100 uwProg8).toOption.map Gen.string_literals = some ["HP: @SI0"] ∧
    uwFin8.out = ["HP: 75"] ∧
    uwFin8.finished = true ∧
    get_mem uwFin8.memory 64 = 75 := by
  refine ⟨?_, ?_, rfl, rfl, rfl, rfl⟩
  · rw [genExpr]
    rw [if_neg (by simp [isConcat])]
    rw [hoff]
    dsimp only
    rcases hidx : listIndex g.string_literals s with _ | idx
    · refine ⟨g.string_literals.length, _, rfl, ?_, ?_, ?_⟩
      · cases htf : g.target_is_func <;> simp [emit, htf]
      · rw [emit_string_literals]
        simp
      · rw [emit_string_literals]
        exact getD_append_length g.string_literals _
    · have hlt := listIndex_lt_length g.string_literals s idx hidx
      refine ⟨idx, _, rfl, ?_, ?_, ?_⟩
      · cases htf : g.target_is_func <;> simp [emit, htf]
      · rw [emit_string_literals]
        simp [hlt]
      · rw [emit_string_literals]
        exact getD_set_self g.string_literals idx _ hlt
  · rw [genExpr]
    rw [if_neg (by simp [isConcat])]
    rw [hoff]
    dsimp only
    rcases hidx : listIndex g.string_literals s with _ | idx
    · refine ⟨g.string_literals.length, _, rfl, ?_, ?_, ?_⟩
      · cases htf : g.target_is_func <;> simp [emit, htf]
      · rw [emit_string_literals]
        simp
      · rw [emit_string_literals]
        exact getD_append_length g.string_literals _
    · have hlt := listIndex_lt_length g.string_literals s idx hidx
      refine ⟨idx, _, rfl, ?_, ?_, ?_⟩
      · cases htf : g.target_is_func <;> simp [emit, htf]
      · rw [emit_string_literals]
        simp [hlt]
      · rw [emit_string_literals]
        exact getD_set_self g.string_literals idx _ hlt

/-- Instance of the C8 statement at a generator state holding the
literal `HP: ` and the integer global `hp`. -/
theorem uw_c8_plus_literal_substitution_witness :
    (∃ (idx : Nat) (g2 : Gen),
      genExpr (0 + 1) genW (.bin "+" (.str "HP: ") (.ident "hp")) = .ok g2 ∧
      (if genW.target_is_func = true
       then g2.main_code = genW.main_code ∧
            g2.func_code = genW.func_code ++ [.instr1 "PUSHI" (.num idx)]
       else g2.main_code = genW.main_code ++ [.instr1 "PUSHI" (.num idx)] ∧
            g2.func_code = genW.func_code) ∧
      idx < g2.string_literals.length ∧
      g2.string_literals.getD idx "" =
        "HP: " ++ "@" ++
          (if (dictLookup genW.variable_types "hp").getD "integer" = "string"
           then "SS" else "SI") ++ toString (0 : Int)) ∧
    (∃ (idx : Nat) (g2 : Gen),
      genExpr (0 + 1) genW (.bin "+" (.ident "hp") (.str "HP: ")) = .ok g2 ∧
      (if genW.target_is_func = true
       then g2.main_code = genW.main_code ∧
            g2.func_code = genW.func_code ++ [.instr1 "PUSHI" (.num idx)]
       else g2.main_code = genW.main_code ++ [.instr1 "PUSHI" (.num idx)] ∧
            g2.func_code = genW.func_code) ∧
      idx < g2.string_literals.length ∧
      g2.string_literals.getD idx "" =
        "@" ++ (if (dictLookup genW.variable_types "hp").getD "integer" = "string"
                then "SS" else "SI") ++ toString (0 : Int) ++ "HP: ") ∧
    (generate 100 uwProg8).toOption.map Gen.string_literals = some ["HP: @SI0"] ∧
    uwFin8.out = ["HP: 75"] ∧
    uwFin8.finished = true ∧
    get_mem uwFin8.memory 64 = 75 :=
  uw_c8_plus_literal_substitution genW 0 "HP: " "hp" 0 rfl

end UwTools
